import Mathlib

/-!
Verification development for the `erigon-db` repository (a typed accessor
layer over Erigon's mdbx store).  The definitions below are a shallow
embedding of the Rust sources `src/erigon/mod.rs` and `src/erigon/models.rs`:
byte buffers become `List Nat` (one entry per byte), machine integers become
`Nat` with explicit `% 2 ^ w` where wrap-around matters, fallible code
returns `Option`/`Except`, and a Rust panic (e.g. a `bytes::Buf` over-read or
an `unwrap` of `None`) is a dedicated outcome constructor.

External collaborators that are not part of the repository's sources are
modelled from their documented behaviour: the `roaring` crate's
`RoaringTreemap` (`rank`/`select` over a sorted set of integers), the
`fastrlp` crate's RLP primitives, and the kv cursor layer (`seek`,
`seek_dup`), the latter following the spec's description of the cursor
capability.
-/

namespace ErigonDb

/-! ## Big-endian byte strings -/

/-- Minimal big-endian byte representation of a natural number
(no leading zero byte; `0` is the empty string). -/
def beBytes (n : Nat) : List Nat := (Nat.digits 256 n).reverse

/-- Read a big-endian byte string back as a natural number. -/
def fromBE (bs : List Nat) : Nat := Nat.ofDigits 256 bs.reverse

/-- Big-endian representation of `n` left-padded with zeros to width `w`. -/
def bePad (w n : Nat) : List Nat :=
  List.replicate (w - (beBytes n).length) 0 ++ beBytes n

/-! ## The `roaring` bitmap model and the `find` helper

`RoaringTreemap` is modelled as the sorted list of its members.  Per the
crate's documentation (and the spec's glossary), `rank x` is the number of
members `≤ x` and `select i` is the `i`-th smallest member (0-indexed),
`none` when out of range. -/

/-- Modelled from the `roaring` crate: `RoaringTreemap::rank(n)`, the number
of bitmap members that are `≤ n`. -/
def rank (map : List Nat) (n : Nat) : Nat := (map.filter (fun x => x ≤ n)).length

/-- Modelled from the `roaring` crate: `RoaringTreemap::select(i)`, the
`i`-th smallest member of the bitmap (0-indexed), `none` when `i` is out of
range.  On a sorted member list this is positional lookup. -/
def select (map : List Nat) (i : Nat) : Option Nat := map.get? i

/-- `fn find(map: RoaringTreemap, n: u64) -> u64` from `src/erigon/mod.rs`:
`map.select(map.rank(n.saturating_sub(1))).unwrap()`.  Nat subtraction is
saturating, and the `unwrap` panic is modelled by `none`. -/
def find (map : List Nat) (n : Nat) : Option Nat := select map (rank map (n - 1))

/-- Written from the spec's words, for comparison with `find`: the smallest
bitmap element that is `≥` the queried block (`none` if there is none). -/
def smallestGeqSpec (map : List Nat) (n : Nat) : Option Nat :=
  (map.filter (fun x => n ≤ x)).head?

/-! ## Domain model (`src/erigon/models.rs`) -/

/-- `KECCAK_LENGTH`: width of a 256-bit hash in bytes. -/
def KECCAK_LENGTH : Nat := 32

/-- `ADDRESS_LENGTH`: width of an address in bytes. -/
def ADDRESS_LENGTH : Nat := 20

/-- `BLOOM_BYTE_LENGTH`: width of a log bloom in bytes. -/
def BLOOM_BYTE_LENGTH : Nat := 256

/-- `EMPTY_HASH`: keccak256 of the empty string, the well-known
empty-code hash (`models.rs`). -/
def EMPTY_HASH : Nat :=
  0xc5d2460186f7233c927e7db2dcc703c0e500b653ca82273b7bfad8045d85a470

/-- The `Account` struct of `models.rs`: 256-bit quantities and hashes are
`Nat` values (an `H256` is identified with its big-endian value). -/
structure Account where
  nonce : Nat
  incarnation : Nat
  balance : Nat
  codehash : Nat
deriving Repr, DecidableEq

/-- `Account::default()`: the zero account. -/
def Account.default : Account :=
  { nonce := 0, incarnation := 0, balance := 0, codehash := 0 }

/-- The `BlockHeader` struct of `models.rs`.  Fixed-width byte fields
(`H256`, `Address`, `Bloom`, `H64`) are identified with their big-endian
values; `extra` is a raw byte string; `seal` is the optional unparsed seal
bytes. -/
structure BlockHeader where
  parent_hash : Nat
  uncle_hash : Nat
  coinbase : Nat
  root : Nat
  tx_hash : Nat
  receipts_hash : Nat
  bloom : Nat
  difficulty : Nat
  number : Nat
  gas_limit : Nat
  gas_used : Nat
  time : Nat
  extra : List Nat
  mix_digest : Nat
  nonce : Nat
  base_fee : Option Nat
  «seal» : Option (List Nat)
deriving Repr, DecidableEq

/-- The `BodyForStorage` struct of `models.rs`. -/
structure BodyForStorage where
  base_tx_id : Nat
  tx_amount : Nat
  uncles : List BlockHeader
deriving Repr, DecidableEq

/-! ## Account decoding (`impl TableDecode for Account`, `models.rs`)

The outcome type distinguishes a returned decode error (`eyre::bail!`) from
a Rust panic (an out-of-bounds slice or `bytes::Buf` over-read). -/

/-- Outcome of running a fallible Rust decoder: a value, a returned error,
or a process-aborting panic. -/
inductive TDecodeResult (α : Type) where
  | ok : α → TDecodeResult α
  | err : String → TDecodeResult α
  | panic : TDecodeResult α
deriving Repr, DecidableEq

/-- Sequencing of decode steps; `err` and `panic` short-circuit. -/
def TDecodeResult.andThen : TDecodeResult α → (α → TDecodeResult β) → TDecodeResult β
  | .ok a, f => f a
  | .err m, _ => .err m
  | .panic, _ => .panic

/-- Modelled from the spec: the helper `parse_u64_with_len` lives in
`src/erigon/utils.rs`, which is not part of the provided sources.  Per the
spec it reads a u64 stored with the shortest-encoding convention used by
Erigon's account format: a 1-byte length followed by that many big-endian
bytes.  Reading past the end of the buffer is a `bytes::Buf` panic. -/
def parse_u64_with_len : List Nat → TDecodeResult (Nat × List Nat)
  | [] => .panic
  | len :: rest =>
    if rest.length < len then .panic
    else .ok (fromBE (rest.take len) % 2 ^ 64, rest.drop len)

/-- Nonce step of `Account::decode`: run when `fieldset & 1 > 0`. -/
def decodeNonce (fieldset : Nat) (st : Account × List Nat) :
    TDecodeResult (Account × List Nat) :=
  if fieldset &&& 1 = 0 then .ok st
  else
    (parse_u64_with_len st.2).andThen fun p =>
      .ok ({ st.1 with nonce := p.1 }, p.2)

/-- Balance step of `Account::decode`: run when `fieldset & 2 > 0`.  Reads a
1-byte length then that many big-endian bytes into a `U256`
(`U256::from(&enc[..bal_len])`); slicing past the end of the buffer panics,
and `U256::from_big_endian` panics when the slice is longer than 32 bytes. -/
def decodeBalance (fieldset : Nat) (st : Account × List Nat) :
    TDecodeResult (Account × List Nat) :=
  if fieldset &&& 2 = 0 then .ok st
  else
    match st.2 with
    | [] => .panic
    | balLen :: rest =>
      if rest.length < balLen then .panic
      else if 32 < balLen then .panic
      else .ok ({ st.1 with balance := fromBE (rest.take balLen) }, rest.drop balLen)

/-- Incarnation step of `Account::decode`: run when `fieldset & 4 > 0`,
using the same helper as the nonce. -/
def decodeIncarnation (fieldset : Nat) (st : Account × List Nat) :
    TDecodeResult (Account × List Nat) :=
  if fieldset &&& 4 = 0 then .ok st
  else
    (parse_u64_with_len st.2).andThen fun p =>
      .ok ({ st.1 with incarnation := p.1 }, p.2)

/-- Codehash step of `Account::decode`: run when `fieldset & 8 > 0`.  Reads
a 1-byte length which must be exactly `KECCAK_LENGTH` (else
`eyre::bail!`), then 32 bytes (slicing past the end panics). -/
def decodeCodehash (fieldset : Nat) (st : Account × List Nat) :
    TDecodeResult (Account × List Nat) :=
  if fieldset &&& 8 = 0 then .ok st
  else
    match st.2 with
    | [] => .panic
    | len :: rest =>
      if len ≠ KECCAK_LENGTH then
        .err ("codehash should be " ++ toString KECCAK_LENGTH ++
          " bytes long. Got " ++ toString len ++ " instead")
      else if rest.length < KECCAK_LENGTH then .panic
      else .ok ({ st.1 with codehash := fromBE (rest.take KECCAK_LENGTH) },
        rest.drop KECCAK_LENGTH)

/-- `impl TableDecode for Account` (`models.rs`): an empty buffer is the
default account; otherwise a leading fieldset byte selects which of
nonce/balance/incarnation/codehash follow. -/
def Account.decode (enc : List Nat) : TDecodeResult Account :=
  match enc with
  | [] => .ok Account.default
  | fieldset :: rest =>
    ((((TDecodeResult.ok (Account.default, rest)).andThen
        (decodeNonce fieldset)).andThen
        (decodeBalance fieldset)).andThen
        (decodeIncarnation fieldset)).andThen
        (decodeCodehash fieldset) |>.andThen fun st => .ok st.1

/-! ## Store façade helpers (`src/erigon/mod.rs`)

The kv layer (`src/kv`) is not part of the provided sources; tables and
cursors are modelled from the spec: a table is its sorted entry list (or a
key-to-value function for plain `get` access), `seek key` returns the first
entry whose key is `≥ key`, and `seek_dup bucket sub` returns the first
duplicate entry in `bucket` whose sub-key is `≥ sub`. -/

/-- Lexicographic `≤` on 2-component composite keys (encoded keys sort
byte-lexicographically in tuple order). -/
def leKey2 (a b : Nat × Nat) : Bool :=
  decide (a.1 < b.1) || (decide (a.1 = b.1) && decide (a.2 ≤ b.2))

/-- Lexicographic `≤` on 3-component composite keys. -/
def leKey3 (a b : Nat × Nat × Nat) : Bool :=
  decide (a.1 < b.1) || (decide (a.1 = b.1) && leKey2 a.2 b.2)

/-- Modelled from the spec: cursor `seek` on a table with 2-component keys —
the first entry at or after the given key. -/
def seek2 (tbl : List ((Nat × Nat) × α)) (key : Nat × Nat) :
    Option ((Nat × Nat) × α) :=
  tbl.find? (fun e => leKey2 key e.1)

/-- Modelled from the spec: cursor `seek` on a table with 3-component keys. -/
def seek3 (tbl : List ((Nat × Nat × Nat) × α)) (key : Nat × Nat × Nat) :
    Option ((Nat × Nat × Nat) × α) :=
  tbl.find? (fun e => leKey3 key e.1)

/-- Modelled from the spec: cursor `seek_dup` on a duplicate-sorted table —
within the bucket of the given key, the first duplicate entry whose sub-key
is at or after `sub` (`none` when the bucket is absent). -/
def seekDup [BEq κ] (tbl : List (κ × List (Nat × α))) (bucket : κ) (sub : Nat) :
    Option (Nat × α) :=
  (tbl.lookup bucket).bind fun dups => dups.find? (fun e => decide (sub ≤ e.1))

/-- Outcome of a history lookup: `ok` (with an optional value), a returned
`eyre` error, or a panic. -/
inductive HistResult (α : Type) where
  | ok : Option α → HistResult α
  | err : String → HistResult α
  | panic : HistResult α
deriving Repr, DecidableEq

/-- The transaction-scoped table state read by the historical state engine.
`accountHistory` is keyed by `(address, block)`, `storageHistory` by
`(address, slot, block)`; the change sets are duplicate-sorted buckets, and
`plainCodeHash` is the `PlainCodeHash` table as a keyed `get`. -/
structure HistStore where
  accountHistory : List ((Nat × Nat) × List Nat)
  accountChangeSet : List (Nat × List (Nat × Account))
  plainCodeHash : Nat × Nat → Option Nat
  storageHistory : List ((Nat × Nat × Nat) × List Nat)
  storageChangeSet : List ((Nat × Nat × Nat) × List (Nat × Nat))

/-- `Erigon::read_account_hist` (`src/erigon/mod.rs`): seek the
account-history index at `(adr, block)` (a miss is `eyre!("No value")`),
extract the change-set block from the bitmap via `find` (whose `unwrap` can
panic), seek the change-set duplicates at `(cs_block, adr)`, and on an exact
sub-key match return the snapshot, backfilling the codehash from
`PlainCodeHash` when the incarnation is non-zero and the stored codehash is
zero (a backfill miss is `eyre!("No value")`). -/
def read_account_hist (σ : HistStore) (adr block : Nat) : HistResult Account :=
  match seek2 σ.accountHistory (adr, block) with
  | none => .err "No value"
  | some (_, bitmap) =>
    match find bitmap block with
    | none => .panic
    | some csBlock =>
      match seekDup σ.accountChangeSet csBlock adr with
      | none => .ok none
      | some (k, acct) =>
        if k = adr then
          if 0 < acct.incarnation ∧ acct.codehash = 0 then
            match σ.plainCodeHash (adr, acct.incarnation) with
            | none => .err "No value"
            | some ch => .ok (some { acct with codehash := ch })
          else .ok (some acct)
        else .ok none

/-- `Erigon::read_storage_hist` (`src/erigon/mod.rs`): the storage analogue
of `read_account_hist`, with index key `(adr, slot, block)`, change-set
bucket `(cs_block, (adr, inc))` and duplicate sub-key `slot`; no codehash
backfill. -/
def read_storage_hist (σ : HistStore) (adr inc slot block : Nat) : HistResult Nat :=
  match seek3 σ.storageHistory (adr, slot, block) with
  | none => .err "No value"
  | some (_, bitmap) =>
    match find bitmap block with
    | none => .panic
    | some csBlock =>
      match seekDup σ.storageChangeSet (csBlock, adr, inc) slot with
      | none => .ok none
      | some (k, v) =>
        if k = slot then .ok (some v) else .ok none

/-- `Erigon::read_code` (`src/erigon/mod.rs`): short-circuits on the
well-known empty-code hash (returning `Ok(Default::default())`, i.e. the
empty option, without touching the store), otherwise reads the `Code` table
(modelled as a key-to-value function). -/
def read_code (code : Nat → Option (List Nat)) (codehash : Nat) :
    Option (List Nat) :=
  if codehash = EMPTY_HASH then none else code codehash

/-- `Erigon::is_canonical_hash` (`src/erigon/mod.rs`): look up the hash's
header number (`eyre!("No value")` on a miss), then that number's canonical
hash (`eyre!("No value")` on a miss), and return
`canon != Default::default() && canon == hash`. -/
def is_canonical_hash (headerNumber canonicalHeader : Nat → Option Nat)
    (hash : Nat) : Except String Bool :=
  match headerNumber hash with
  | none => .error "No value"
  | some num =>
    match canonicalHeader num with
    | none => .error "No value"
    | some canon => .ok (decide (canon ≠ 0 ∧ canon = hash))

/-- `Erigon::read_body_for_storage` (`src/erigon/mod.rs`): a missing key is
an empty result; otherwise `base_tx_id` is incremented (u64 arithmetic) and
`tx_amount` is decremented by 2 via `checked_sub`, failing with a
descriptive error when the stored body has fewer than 2 transactions.  The
table read is modelled by its decoded result `stored`. -/
def read_body_for_storage (key : Nat × Nat) (stored : Option BodyForStorage) :
    Except String (Option BodyForStorage) :=
  match stored with
  | none => .ok none
  | some body =>
    if body.tx_amount < 2 then
      .error ("Block body has too few txs: " ++ toString body.tx_amount ++
        ". HeaderKey: " ++ toString key.1 ++ ", " ++ toString key.2)
    else
      .ok (some { body with
        base_tx_id := (body.base_tx_id + 1) % 2 ^ 64,
        tx_amount := body.tx_amount - 2 })

/-! ## RLP primitives (modelled from the `fastrlp` crate)

`fastrlp` is an external crate; its primitives are modelled from the RLP
wire format it implements (including its canonicity checks).  Values of
fixed-width byte types are identified with their big-endian `Nat` value. -/

/-- `fastrlp::length_of_length`: the width of an RLP length header for a
payload of `len` bytes. -/
def length_of_length (len : Nat) : Nat :=
  if len < 56 then 1 else 1 + (beBytes len).length

/-- The RLP header bytes for a string (`isList = false`) or list
(`isList = true`) payload of `len` bytes. -/
def rlpHeaderBytes (isList : Bool) (len : Nat) : List Nat :=
  if len < 56 then [(if isList then 0xc0 else 0x80) + len]
  else ((if isList then 0xf7 else 0xb7) + (beBytes len).length) :: beBytes len

/-- Modelled from `fastrlp::Header::decode`: reads an RLP item header,
returning whether the item is a list, its payload length, and the rest of
the buffer.  A single byte below `0x80` is its own 1-byte payload (the
buffer is not advanced).  Non-canonical headers (a needlessly long
single-byte string, a leading zero in a long length, a long length below
56) and truncated buffers are rejected. -/
def decodeRlpHeader : List Nat → Option (Bool × Nat × List Nat)
  | [] => none
  | b :: rest =>
    if b < 0x80 then some (false, 1, b :: rest)
    else if b ≤ 0xb7 then
      let len := b - 0x80
      if len = 1 then
        match rest with
        | [] => none
        | b1 :: _ => if b1 < 0x80 then none else some (false, 1, rest)
      else if rest.length < len then none
      else some (false, len, rest)
    else if b ≤ 0xbf then
      let lol := b - 0xb7
      if rest.length < lol then none
      else if (rest.take lol).head? = some 0 then none
      else
        let len := fromBE (rest.take lol)
        if len < 56 then none
        else if (rest.drop lol).length < len then none
        else some (false, len, rest.drop lol)
    else if b ≤ 0xf7 then
      let len := b - 0xc0
      if rest.length < len then none
      else some (true, len, rest)
    else
      let lol := b - 0xf7
      if rest.length < lol then none
      else if (rest.take lol).head? = some 0 then none
      else
        let len := fromBE (rest.take lol)
        if len < 56 then none
        else if (rest.drop lol).length < len then none
        else some (true, len, rest.drop lol)

/-- Modelled from `fastrlp`: encoding of an unsigned integer — the minimal
big-endian byte string, as an RLP string (a value below `0x80` is its own
encoding; `0` is the empty string `0x80`). -/
def encodeUint (n : Nat) : List Nat :=
  if n = 0 then [0x80]
  else if n < 0x80 then [n]
  else (0x80 + (beBytes n).length) :: beBytes n

/-- `fastrlp`'s `length()` for an unsigned integer. -/
def uintLength (n : Nat) : Nat :=
  if n < 0x80 then 1 else 1 + (beBytes n).length

/-- Modelled from `fastrlp`: decoding of an unsigned integer of at most
`maxLen` bytes, with canonicity checks (no leading zero, minimal form) and
an overflow check. -/
def decodeUint (maxLen : Nat) : List Nat → Option (Nat × List Nat)
  | [] => none
  | b :: rest =>
    if b < 0x80 then
      if b = 0 then none else some (b, rest)
    else if b ≤ 0xb7 then
      let len := b - 0x80
      if len = 0 then some (0, rest)
      else if rest.length < len then none
      else if maxLen < len then none
      else if (rest.take len).head? = some 0 then none
      else if len = 1 ∧ (rest.take len).head?.getD 0 < 0x80 then none
      else some (fromBE (rest.take len), rest.drop len)
    else none

/-- Modelled from `fastrlp`: encoding of a fixed-width byte value (`H256`,
`Address`, `Bloom`, `H64`) — an RLP string of exactly `w` bytes, zero
padding retained. -/
def encodeFixed (w n : Nat) : List Nat := rlpHeaderBytes false w ++ bePad w n

/-- Modelled from `fastrlp`: decoding of a fixed-width byte value — an RLP
string whose payload length must be exactly `w`. -/
def decodeFixed (w : Nat) (buf : List Nat) : Option (Nat × List Nat) :=
  (decodeRlpHeader buf).bind fun h =>
    if h.1 = true then none
    else if h.2.1 ≠ w then none
    else if h.2.2.length < w then none
    else some (fromBE (h.2.2.take w), h.2.2.drop w)

/-- Modelled from `fastrlp`: encoding of a raw byte string (`Bytes`) — a
single byte below `0x80` is its own encoding, otherwise header plus
payload. -/
def encodeBytes (bs : List Nat) : List Nat :=
  if bs.length = 1 ∧ bs.head?.getD 0 < 0x80 then bs
  else rlpHeaderBytes false bs.length ++ bs

/-- `fastrlp`'s `length()` for a raw byte string. -/
def bytesLength (bs : List Nat) : Nat :=
  if bs.length = 1 ∧ bs.head?.getD 0 < 0x80 then 1
  else length_of_length bs.length + bs.length

/-- Modelled from `fastrlp`: decoding of a raw byte string. -/
def decodeBytes (buf : List Nat) : Option (List Nat × List Nat) :=
  (decodeRlpHeader buf).bind fun h =>
    if h.1 = true then none
    else if h.2.2.length < h.2.1 then none
    else some (h.2.2.take h.2.1, h.2.2.drop h.2.1)

/-! ## BlockHeader and BodyForStorage codecs (`models.rs`) -/

/-- `BlockHeader::rlp_header` (`models.rs`): the payload length of the
header's list encoding, field by field as the source computes it. -/
def headerPayloadLength (h : BlockHeader) : Nat :=
  (KECCAK_LENGTH + 1) + (KECCAK_LENGTH + 1) + (ADDRESS_LENGTH + 1) +
  (KECCAK_LENGTH + 1) + (KECCAK_LENGTH + 1) + (KECCAK_LENGTH + 1) +
  (BLOOM_BYTE_LENGTH + length_of_length BLOOM_BYTE_LENGTH) +
  uintLength h.difficulty + uintLength h.number + uintLength h.gas_limit +
  uintLength h.gas_used + uintLength h.time + bytesLength h.extra +
  (KECCAK_LENGTH + 1) + (8 + 1) +
  (match h.base_fee with | some f => uintLength f | none => 0)

/-- `impl Encodable for BlockHeader` (`models.rs`): the list header followed
by each field's encoding in declared order; the base fee is appended only
when present. -/
def encodeBlockHeader (h : BlockHeader) : List Nat :=
  rlpHeaderBytes true (headerPayloadLength h) ++
  (encodeFixed 32 h.parent_hash ++ (encodeFixed 32 h.uncle_hash ++
  (encodeFixed 20 h.coinbase ++ (encodeFixed 32 h.root ++
  (encodeFixed 32 h.tx_hash ++ (encodeFixed 32 h.receipts_hash ++
  (encodeFixed 256 h.bloom ++ (encodeUint h.difficulty ++
  (encodeUint h.number ++ (encodeUint h.gas_limit ++
  (encodeUint h.gas_used ++ (encodeUint h.time ++
  (encodeBytes h.extra ++ (encodeFixed 32 h.mix_digest ++
  (encodeFixed 8 h.nonce ++
  (match h.base_fee with | some f => encodeUint f | none => []))))))))))))))))

/-- `fastrlp`'s `length()` for a `BlockHeader`
(`impl Encodable for BlockHeader`, `models.rs`). -/
def blockHeaderLength (h : BlockHeader) : Nat :=
  length_of_length (headerPayloadLength h) + headerPayloadLength h

/-- Fields 1-6 of `BlockHeader` decoding (`models.rs`): the six fixed-width
hash/address fields. -/
def decodeHeaderHashes (b0 : List Nat) :
    Option ((Nat × Nat × Nat × Nat × Nat × Nat) × List Nat) :=
  (decodeFixed 32 b0).bind fun pa =>
  (decodeFixed 32 pa.2).bind fun pb =>
  (decodeFixed 20 pb.2).bind fun pc =>
  (decodeFixed 32 pc.2).bind fun pd =>
  (decodeFixed 32 pd.2).bind fun pe =>
  (decodeFixed 32 pe.2).bind fun pf =>
  some ((pa.1, pb.1, pc.1, pd.1, pe.1, pf.1), pf.2)

/-- Fields 7-12 of `BlockHeader` decoding (`models.rs`): the bloom and the
five integer fields. -/
def decodeHeaderMids (b6 : List Nat) :
    Option ((Nat × Nat × Nat × Nat × Nat × Nat) × List Nat) :=
  (decodeFixed 256 b6).bind fun pg =>
  (decodeUint 32 pg.2).bind fun ph =>
  (decodeUint 32 ph.2).bind fun pi =>
  (decodeUint 8 pi.2).bind fun pj =>
  (decodeUint 8 pj.2).bind fun pk =>
  (decodeUint 8 pk.2).bind fun pl =>
  some ((pg.1, ph.1, pi.1, pj.1, pk.1, pl.1), pl.2)

/-- Fields 13-15 of `BlockHeader` decoding (`models.rs`): extra data, mix
digest and nonce. -/
def decodeHeaderTail (b12 : List Nat) :
    Option ((List Nat × Nat × Nat) × List Nat) :=
  (decodeBytes b12).bind fun pm =>
  (decodeFixed 32 pm.2).bind fun pn =>
  (decodeFixed 8 pn.2).bind fun po =>
  some ((pm.1, pn.1, po.1), po.2)

/-- `impl Decodable for BlockHeader` (`models.rs`): decode the list header
(a non-list is an error), remember `rest = buf.len() - payload_length`,
decode the mandatory fields in order, parse a base fee only when unconsumed
bytes remain before `rest`, and always produce `seal = None`. -/
def decodeBlockHeader (buf : List Nat) : Option (BlockHeader × List Nat) :=
  (decodeRlpHeader buf).bind fun hd =>
  if hd.1 = false then none else
  let rest := hd.2.2.length - hd.2.1
  (decodeHeaderHashes hd.2.2).bind fun qa =>
  (decodeHeaderMids qa.2).bind fun qb =>
  (decodeHeaderTail qb.2).bind fun qc =>
  if rest < qc.2.length then
    (decodeUint 32 qc.2).bind fun qd =>
    some ({ parent_hash := qa.1.1, uncle_hash := qa.1.2.1,
            coinbase := qa.1.2.2.1, root := qa.1.2.2.2.1,
            tx_hash := qa.1.2.2.2.2.1, receipts_hash := qa.1.2.2.2.2.2,
            bloom := qb.1.1, difficulty := qb.1.2.1, number := qb.1.2.2.1,
            gas_limit := qb.1.2.2.2.1, gas_used := qb.1.2.2.2.2.1,
            time := qb.1.2.2.2.2.2, extra := qc.1.1,
            mix_digest := qc.1.2.1, nonce := qc.1.2.2,
            base_fee := some qd.1, «seal» := none }, qd.2)
  else
    some ({ parent_hash := qa.1.1, uncle_hash := qa.1.2.1,
            coinbase := qa.1.2.2.1, root := qa.1.2.2.2.1,
            tx_hash := qa.1.2.2.2.2.1, receipts_hash := qa.1.2.2.2.2.2,
            bloom := qb.1.1, difficulty := qb.1.2.1, number := qb.1.2.2.1,
            gas_limit := qb.1.2.2.2.1, gas_used := qb.1.2.2.2.2.1,
            time := qb.1.2.2.2.2.2, extra := qc.1.1,
            mix_digest := qc.1.2.1, nonce := qc.1.2.2,
            base_fee := none, «seal» := none }, qc.2)

/-- Payload length of the uncles list (`Vec<BlockHeader>` in `fastrlp`):
the sum of the item lengths. -/
def unclesPayloadLength (hs : List BlockHeader) : Nat :=
  (hs.map blockHeaderLength).sum

/-- Modelled from `fastrlp`: `Vec<BlockHeader>` encodes as a list header
followed by the concatenated item encodings. -/
def encodeHeaderVec (hs : List BlockHeader) : List Nat :=
  rlpHeaderBytes true (unclesPayloadLength hs) ++
    (hs.map encodeBlockHeader).flatten

/-- Item loop of `Vec<BlockHeader>` decoding: decode headers until the
payload slice is exhausted.  `fuel` bounds the number of items (each item
consumes at least one byte, so the payload length suffices). -/
def decodeHeaderItems : Nat → List Nat → Option (List BlockHeader)
  | _, [] => some []
  | 0, _ :: _ => none
  | fuel + 1, b :: bs =>
    (decodeBlockHeader (b :: bs)).bind fun p =>
      (decodeHeaderItems fuel p.2).bind fun tl => some (p.1 :: tl)

/-- Modelled from `fastrlp`: `Vec<BlockHeader>` decodes as a list header
followed by items filling exactly the payload. -/
def decodeHeaderVec (buf : List Nat) : Option (List BlockHeader × List Nat) :=
  (decodeRlpHeader buf).bind fun hd =>
    if hd.1 = false then none
    else if hd.2.2.length < hd.2.1 then none
    else
      (decodeHeaderItems hd.2.1 (hd.2.2.take hd.2.1)).bind fun hs =>
        some (hs, hd.2.2.drop hd.2.1)

/-- Payload length of `BodyForStorage`'s derived list encoding. -/
def bodyPayloadLength (b : BodyForStorage) : Nat :=
  uintLength b.base_tx_id + uintLength b.tx_amount +
    (length_of_length (unclesPayloadLength b.uncles) +
      unclesPayloadLength b.uncles)

/-- `BodyForStorage`'s derived `RlpEncodable` (`models.rs`): a list of
`(base_tx_id, tx_amount, uncles)`. -/
def encodeBody (b : BodyForStorage) : List Nat :=
  rlpHeaderBytes true (bodyPayloadLength b) ++
    (encodeUint b.base_tx_id ++ (encodeUint b.tx_amount ++
      encodeHeaderVec b.uncles))

/-- `BodyForStorage`'s derived `RlpDecodable` (`models.rs`). -/
def decodeBody (buf : List Nat) : Option (BodyForStorage × List Nat) :=
  (decodeRlpHeader buf).bind fun hd =>
  if hd.1 = false then none else
  (decodeUint 8 hd.2.2).bind fun (btx, b1) =>
  (decodeUint 4 b1).bind fun (txa, b2) =>
  (decodeHeaderVec b2).bind fun (uncles, b3) =>
  some ({ base_tx_id := btx, tx_amount := txa, uncles }, b3)

/-- Validity of a `BlockHeader` value: each field fits its Rust type
(`H256`/`U256` in 32 bytes, `Address` in 20, `Bloom` in 256, `u64`/`H64` in
8), `extra` is a byte string of representable length, and the seal — which
the encoder ignores and the decoder never reconstructs — is absent. -/
def ValidHeader (h : BlockHeader) : Prop :=
  h.parent_hash < 256 ^ 32 ∧ h.uncle_hash < 256 ^ 32 ∧
  h.coinbase < 256 ^ 20 ∧ h.root < 256 ^ 32 ∧ h.tx_hash < 256 ^ 32 ∧
  h.receipts_hash < 256 ^ 32 ∧ h.bloom < 256 ^ 256 ∧
  h.difficulty < 256 ^ 32 ∧ h.number < 256 ^ 32 ∧ h.gas_limit < 256 ^ 8 ∧
  h.gas_used < 256 ^ 8 ∧ h.time < 256 ^ 8 ∧
  (∀ x ∈ h.extra, x < 256) ∧ h.extra.length < 256 ^ 8 ∧
  h.mix_digest < 256 ^ 32 ∧ h.nonce < 256 ^ 8 ∧
  h.base_fee.getD 0 < 256 ^ 32 ∧
  h.«seal» = none

/-- Validity of a `BodyForStorage` value: `u64`/`u32` fields in range and
valid uncle headers. -/
def ValidBody (b : BodyForStorage) : Prop :=
  b.base_tx_id < 256 ^ 8 ∧ b.tx_amount < 256 ^ 4 ∧
    ∀ h ∈ b.uncles, ValidHeader h

instance : DecidablePred ValidHeader := fun h => by
  unfold ValidHeader
  infer_instance

instance : DecidablePred ValidBody := fun b => by
  unfold ValidBody
  infer_instance

/-! ## Concrete fixtures used to exercise the definitions -/

/-- A concrete block header exercising the codecs (base fee present). -/
def sampleHeader : BlockHeader :=
  { parent_hash := 1, uncle_hash := 2, coinbase := 3, root := 4,
    tx_hash := 5, receipts_hash := 6, bloom := 7, difficulty := 1000,
    number := 42, gas_limit := 8000000, gas_used := 21000, time := 1234567,
    extra := [1, 2, 3], mix_digest := 9, nonce := 8,
    base_fee := some 1000000000, «seal» := none }

/-- A concrete stored body with one uncle (base fee absent). -/
def sampleBody : BodyForStorage :=
  { base_tx_id := 77, tx_amount := 5,
    uncles := [{ sampleHeader with base_fee := none, extra := [] }] }

/-- A store whose account-history index maps `(address 1, block 5)` to the
bitmap `{7}` and whose change sets are empty; the storage tables mirror it
for slot 2. -/
def sampleStore : HistStore :=
  { accountHistory := [((1, 5), [7])], accountChangeSet := [],
    plainCodeHash := fun _ => none,
    storageHistory := [((1, 2, 5), [7])], storageChangeSet := [] }

/-- A store whose history bitmaps only contain blocks below the query
block 5, so the change-point lookup has nothing at or after the query. -/
def staleStore : HistStore :=
  { accountHistory := [((1, 9), [3])], accountChangeSet := [],
    plainCodeHash := fun _ => none,
    storageHistory := [((1, 2, 9), [3])], storageChangeSet := [] }

end ErigonDb

namespace ErigonDb

/-! ## Theorems: byte-string preliminaries -/

theorem fromBE_beBytes (n : Nat) : fromBE (beBytes n) = n := by
  simp [fromBE, beBytes, Nat.ofDigits_digits]

theorem ofDigits_replicate_zero (k : Nat) :
    Nat.ofDigits 256 (List.replicate k 0) = 0 := by
  induction k with
  | zero => simp [Nat.ofDigits]
  | succ k ih => simp [List.replicate_succ, Nat.ofDigits_cons, ih]

theorem fromBE_bePad (w n : Nat) : fromBE (bePad w n) = n := by
  simp only [fromBE, bePad, List.reverse_append, Nat.ofDigits_append,
    List.reverse_replicate, ofDigits_replicate_zero, Nat.mul_zero, Nat.add_zero]
  simpa [fromBE, beBytes] using fromBE_beBytes n

theorem beBytes_length_le {n w : Nat} (h : n < 256 ^ w) :
    (beBytes n).length ≤ w := by
  by_cases hn : n = 0
  · simp [beBytes, hn]
  · by_contra hlen
    push_neg at hlen
    have h1 : 256 ^ (Nat.digits 256 n).length ≤ 256 * n :=
      Nat.base_pow_length_digits_le 256 n (by norm_num) hn
    have h2 : (w + 1) ≤ (Nat.digits 256 n).length := by
      simpa [beBytes] using hlen
    have h3 : (256 : Nat) ^ (w + 1) ≤ 256 ^ (Nat.digits 256 n).length :=
      Nat.pow_le_pow_right (by norm_num) h2
    have h4 : (256 : Nat) ^ (w + 1) ≤ 256 * n := le_trans h3 h1
    have h5 : (256 : Nat) * 256 ^ w ≤ 256 * n := by
      simpa [Nat.pow_succ, Nat.mul_comm] using h4
    have h6 : 256 ^ w ≤ n := Nat.le_of_mul_le_mul_left h5 (by norm_num)
    exact absurd h (Nat.not_lt.mpr h6)

theorem bePad_length {w n : Nat} (h : n < 256 ^ w) : (bePad w n).length = w := by
  have hle := beBytes_length_le h
  simp [bePad, Nat.sub_add_cancel hle]

theorem beBytes_ne_nil {n : Nat} (h : n ≠ 0) : beBytes n ≠ [] := by
  simpa [beBytes] using Nat.digits_ne_nil_iff_ne_zero.mpr h

theorem beBytes_head?_ne_zero {n : Nat} (h : n ≠ 0) :
    (beBytes n).head? ≠ some 0 := by
  have hnil : Nat.digits 256 n ≠ [] := Nat.digits_ne_nil_iff_ne_zero.mpr h
  have hlast := Nat.getLast_digit_ne_zero 256 h
  intro hcontra
  have hrev : (Nat.digits 256 n).getLast? = some 0 := by
    rw [List.getLast?_eq_head?_reverse]
    simpa [beBytes] using hcontra
  rw [List.getLast?_eq_getLast _ hnil] at hrev
  exact hlast (Option.some.injEq _ _ ▸ hrev)

theorem beBytes_lt {n w : Nat} (h : (beBytes n).length ≤ w) : n < 256 ^ w := by
  have h1 : n < 256 ^ (Nat.digits 256 n).length :=
    Nat.lt_base_pow_length_digits (by norm_num)
  have h2 : (256 : Nat) ^ (Nat.digits 256 n).length ≤ 256 ^ w :=
    Nat.pow_le_pow_right (by norm_num) (by simpa [beBytes] using h)
  exact lt_of_lt_of_le h1 h2

/-! ## Theorems: the `find` helper -/

theorem filter_eq_takeWhile_of_sorted {map : List Nat} {k : Nat}
    (hs : map.Sorted (· < ·)) :
    map.filter (fun x => x ≤ k) = map.takeWhile (fun x => x ≤ k) := by
  induction map with
  | nil => rfl
  | cons a tl ih =>
    rcases List.sorted_cons.mp hs with ⟨ha, htl⟩
    by_cases hak : a ≤ k
    · simp [List.filter_cons, List.takeWhile_cons, hak, ih htl]
    · have hnone : ∀ x ∈ tl, ¬ (x ≤ k) := by
        intro x hx
        have := ha x hx
        omega
      simp only [List.filter_cons, List.takeWhile_cons, hak, decide_eq_true_eq,
        if_false, decide_False]
      simp [hak]
      intro x hx
      have := hnone x hx
      omega

theorem dropWhile_head_filter {map : List Nat} {k : Nat}
    (hs : map.Sorted (· < ·)) :
    (map.dropWhile (fun x => x ≤ k)).head? = (map.filter (fun x => k < x)).head? := by
  induction map with
  | nil => rfl
  | cons a tl ih =>
    rcases List.sorted_cons.mp hs with ⟨ha, htl⟩
    by_cases hak : a ≤ k
    · have hnlt : ¬ (k < a) := by omega
      simp [List.dropWhile_cons, List.filter_cons, hak, hnlt, ih htl]
    · have hka : k < a := by omega
      simp [List.dropWhile_cons, List.filter_cons, hak, hka]

theorem find_eq_smallestGeq {map : List Nat} {n : Nat}
    (hs : map.Sorted (· < ·)) (h0 : 1 ≤ n ∨ 0 ∉ map) :
    find map n = smallestGeqSpec map n := by
  have hsplit : map.takeWhile (fun x => x ≤ n - 1) ++
      map.dropWhile (fun x => x ≤ n - 1) = map :=
    List.takeWhile_append_dropWhile _ _
  have hrank : rank map (n - 1) = (map.takeWhile (fun x => x ≤ n - 1)).length := by
    rw [rank, filter_eq_takeWhile_of_sorted hs]
  have happ : (map.takeWhile (fun x => x ≤ n - 1) ++
      map.dropWhile (fun x => x ≤ n - 1)).get?
        (map.takeWhile (fun x => x ≤ n - 1)).length =
      (map.dropWhile (fun x => x ≤ n - 1)).head? := by
    rw [List.get?_eq_getElem?, List.getElem?_append_right (le_refl _)]
    simp [List.head?_eq_getElem?]
  rw [hsplit] at happ
  have hget : find map n = (map.dropWhile (fun x => x ≤ n - 1)).head? := by
    rw [find, select, hrank, happ]
  rw [hget, dropWhile_head_filter hs, smallestGeqSpec]
  congr 1
  apply List.filter_congr
  intro x hx
  rcases h0 with h1 | hnotin
  · simp only [decide_eq_decide]
    omega
  · have hx0 : x ≠ 0 := fun hc => hnotin (hc ▸ hx)
    simp only [decide_eq_decide]
    omega

/-! ## Theorems: RLP primitive round-trips -/

theorem rlpHeaderBytes_length (isList : Bool) (len : Nat) :
    (rlpHeaderBytes isList len).length = length_of_length len := by
  unfold rlpHeaderBytes length_of_length
  split <;> simp [Nat.add_comm]

theorem decodeRlpHeader_list (len : Nat) (tail : List Nat)
    (hlen : len ≤ tail.length) :
    decodeRlpHeader (rlpHeaderBytes true len ++ tail) = some (true, len, tail) := by
  by_cases h56 : len < 56
  · have hbuf : rlpHeaderBytes true len ++ tail = (0xc0 + len) :: tail := by
      simp [rlpHeaderBytes, h56]
    rw [hbuf]
    have h1 : ¬ (0xc0 + len < 0x80) := by omega
    have h2 : ¬ (0xc0 + len ≤ 0xb7) := by omega
    have h3 : ¬ (0xc0 + len ≤ 0xbf) := by omega
    have h4 : 0xc0 + len ≤ 0xf7 := by omega
    have h5 : 0xc0 + len - 0xc0 = len := by omega
    simp [decodeRlpHeader, h1, h2, h3, h4, h5, Nat.not_lt.mpr hlen]
  · have hne : len ≠ 0 := by omega
    have hnn := beBytes_ne_nil hne
    have hlol : 1 ≤ (beBytes len).length := by
      cases hbe : beBytes len with
      | nil => exact absurd hbe hnn
      | cons a l => simp
    have hbuf : rlpHeaderBytes true len ++ tail =
        (0xf7 + (beBytes len).length) :: (beBytes len ++ tail) := by
      simp [rlpHeaderBytes, h56]
    rw [hbuf]
    have h1 : ¬ (0xf7 + (beBytes len).length < 0x80) := by omega
    have h2 : ¬ (0xf7 + (beBytes len).length ≤ 0xb7) := by omega
    have h3 : ¬ (0xf7 + (beBytes len).length ≤ 0xbf) := by omega
    have h4 : ¬ (0xf7 + (beBytes len).length ≤ 0xf7) := by omega
    have h5 : 0xf7 + (beBytes len).length - 0xf7 = (beBytes len).length := by
      omega
    have htake : (beBytes len ++ tail).take (beBytes len).length = beBytes len :=
      List.take_left _ _
    have hdrop : (beBytes len ++ tail).drop (beBytes len).length = tail :=
      List.drop_left _ _
    have hlen2 : ¬ ((beBytes len ++ tail).length < (beBytes len).length) := by
      simp
    have hhead : ¬ ((beBytes len ++ tail).take (beBytes len).length).head? =
        some 0 := by
      rw [htake]
      exact beBytes_head?_ne_zero hne
    simp only [decodeRlpHeader, h1, h2, h3, h4, h5, if_false, if_neg h1,
      if_neg h2, if_neg h3, if_neg h4, if_neg hlen2, if_neg hhead, htake, hdrop,
      fromBE_beBytes]
    have h56f : ¬ (len < 56) := h56
    simp [h56f, Nat.not_lt.mpr hlen]
    exact beBytes_head?_ne_zero hne

theorem decodeRlpHeader_str (len : Nat) (tail : List Nat) (h2le : 2 ≤ len)
    (hlen : len ≤ tail.length) (hlol : (beBytes len).length ≤ 8) :
    decodeRlpHeader (rlpHeaderBytes false len ++ tail) = some (false, len, tail) := by
  by_cases h56 : len < 56
  · have hbuf : rlpHeaderBytes false len ++ tail = (0x80 + len) :: tail := by
      simp [rlpHeaderBytes, h56]
    rw [hbuf]
    have h1 : ¬ (0x80 + len < 0x80) := by omega
    have hle : 0x80 + len ≤ 0xb7 := by omega
    have h5 : 0x80 + len - 0x80 = len := by omega
    have hne1 : ¬ (len = 1) := by omega
    simp [decodeRlpHeader, h1, hle, h5, hne1, Nat.not_lt.mpr hlen]
  · have hne : len ≠ 0 := by omega
    have hnn := beBytes_ne_nil hne
    have hlol1 : 1 ≤ (beBytes len).length := by
      cases hbe : beBytes len with
      | nil => exact absurd hbe hnn
      | cons a l => simp
    have hbuf : rlpHeaderBytes false len ++ tail =
        (0xb7 + (beBytes len).length) :: (beBytes len ++ tail) := by
      simp [rlpHeaderBytes, h56]
    rw [hbuf]
    have h1 : ¬ (0xb7 + (beBytes len).length < 0x80) := by omega
    have hgt : ¬ (0xb7 + (beBytes len).length ≤ 0xb7) := by omega
    have hbf : 0xb7 + (beBytes len).length ≤ 0xbf := by omega
    have h5 : 0xb7 + (beBytes len).length - 0xb7 = (beBytes len).length := by
      omega
    have htake : (beBytes len ++ tail).take (beBytes len).length = beBytes len :=
      List.take_left _ _
    have hdrop : (beBytes len ++ tail).drop (beBytes len).length = tail :=
      List.drop_left _ _
    have hlen2 : ¬ ((beBytes len ++ tail).length < (beBytes len).length) := by
      simp
    have hhead : ¬ ((beBytes len ++ tail).take (beBytes len).length).head? =
        some 0 := by
      rw [htake]
      exact beBytes_head?_ne_zero hne
    simp only [decodeRlpHeader, h1, hgt, hbf, h5, if_neg h1, if_neg hgt,
      if_pos hbf, if_neg hlen2, if_neg hhead, htake, hdrop, fromBE_beBytes]
    have h56f : ¬ (len < 56) := h56
    simp [h56f, Nat.not_lt.mpr hlen]
    exact beBytes_head?_ne_zero hne

theorem beBytes_singleton {n : Nat} (h0 : n ≠ 0) (h1 : (beBytes n).length = 1) :
    beBytes n = [n] := by
  have hlt : n < 256 := @beBytes_lt n 1 (by omega)
  simp [beBytes, Nat.digits_def' (by norm_num : 1 < 256) (Nat.pos_of_ne_zero h0),
    Nat.mod_eq_of_lt hlt, Nat.div_eq_of_lt hlt]

theorem decodeUint_encode {maxLen n : Nat} (tail : List Nat)
    (hn : n < 256 ^ maxLen) (hmax : maxLen ≤ 55) :
    decodeUint maxLen (encodeUint n ++ tail) = some (n, tail) := by
  by_cases h0 : n = 0
  · subst h0
    have hbuf : encodeUint 0 ++ tail = 0x80 :: tail := by simp [encodeUint]
    rw [hbuf]
    simp [decodeUint]
  · by_cases hsb : n < 0x80
    · have hbuf : encodeUint n ++ tail = n :: tail := by simp [encodeUint, h0, hsb]
      rw [hbuf]
      simp [decodeUint, hsb, h0]
    · have hlen1 : 1 ≤ (beBytes n).length := by
        cases hbe : beBytes n with
        | nil => exact absurd hbe (beBytes_ne_nil h0)
        | cons a l => simp
      have hlenle : (beBytes n).length ≤ maxLen := beBytes_length_le hn
      have hbuf : encodeUint n ++ tail =
          (0x80 + (beBytes n).length) :: (beBytes n ++ tail) := by
        simp [encodeUint, h0, hsb]
      rw [hbuf]
      have h1 : ¬ (0x80 + (beBytes n).length < 0x80) := by omega
      have h2 : 0x80 + (beBytes n).length ≤ 0xb7 := by omega
      have h5 : 0x80 + (beBytes n).length - 0x80 = (beBytes n).length := by omega
      have hne0 : ¬ ((beBytes n).length = 0) := by omega
      have hlt : ¬ ((beBytes n ++ tail).length < (beBytes n).length) := by simp
      have hover : ¬ (maxLen < (beBytes n).length) := by omega
      have htake : (beBytes n ++ tail).take (beBytes n).length = beBytes n :=
        List.take_left _ _
      have hdrop : (beBytes n ++ tail).drop (beBytes n).length = tail :=
        List.drop_left _ _
      have hhead : ¬ ((beBytes n ++ tail).take (beBytes n).length).head? =
          some 0 := by
        rw [htake]
        exact beBytes_head?_ne_zero h0
      have hcanon : ¬ ((beBytes n).length = 1 ∧
          ((beBytes n ++ tail).take (beBytes n).length).head?.getD 0 < 0x80) := by
        rintro ⟨ha, hb⟩
        rw [htake, beBytes_singleton h0 ha] at hb
        simp at hb
        omega
      have hh2 : ¬ ((beBytes n).head? = some 0) := beBytes_head?_ne_zero h0
      have hc2 : ¬ ((beBytes n).length = 1 ∧ (beBytes n).head?.getD 0 < 0x80) := by
        rintro ⟨ha, hb⟩
        rw [beBytes_singleton h0 ha] at hb
        simp at hb
        omega
      simp only [decodeUint, h1, h2, h5, if_neg h1, if_pos h2, if_neg hne0,
        if_neg hlt, if_neg hover, if_neg hhead, if_neg hcanon, htake, hdrop,
        fromBE_beBytes]
      simp [hh2, hc2]

theorem encodeUint_length (n : Nat) : (encodeUint n).length = uintLength n := by
  unfold encodeUint uintLength
  by_cases h0 : n = 0
  · simp [h0]
  · by_cases hsb : n < 0x80 <;> simp [h0, hsb, Nat.add_comm]

theorem decodeFixed_encode {w n : Nat} (tail : List Nat) (hw : 2 ≤ w)
    (hlol : (beBytes w).length ≤ 8) (hn : n < 256 ^ w) :
    decodeFixed w (encodeFixed w n ++ tail) = some (n, tail) := by
  have hpadlen : (bePad w n).length = w := bePad_length hn
  have hbuf : encodeFixed w n ++ tail =
      rlpHeaderBytes false w ++ (bePad w n ++ tail) := by
    simp [encodeFixed, List.append_assoc]
  rw [hbuf]
  have hwle : w ≤ (bePad w n ++ tail).length := by
    rw [List.length_append, hpadlen]
    omega
  rw [decodeFixed, decodeRlpHeader_str w _ hw hwle hlol]
  have htake : (bePad w n ++ tail).take w = bePad w n := by
    rw [List.take_append_of_le_length hpadlen.ge]
    exact List.take_of_length_le hpadlen.le
  have hdrop : (bePad w n ++ tail).drop w = tail := by
    rw [List.drop_append_of_le_length hpadlen.ge,
      List.drop_eq_nil_of_le hpadlen.le]
    simp
  have hlt : ¬ ((bePad w n ++ tail).length < w) := by
    rw [List.length_append, hpadlen]
    omega
  have hle2 : w ≤ (bePad w n).length + tail.length := by omega
  simp [Option.bind, hlt, htake, hdrop, fromBE_bePad, hle2]

theorem encodeFixed_length {w n : Nat} (hn : n < 256 ^ w) :
    (encodeFixed w n).length = length_of_length w + w := by
  simp [encodeFixed, rlpHeaderBytes_length, bePad_length hn]

theorem decodeBytes_encode (bs tail : List Nat)
    (hlol : (beBytes bs.length).length ≤ 8) :
    decodeBytes (encodeBytes bs ++ tail) = some (bs, tail) := by
  by_cases hsingle : bs.length = 1 ∧ bs.head?.getD 0 < 0x80
  · obtain ⟨hlen1, hhead⟩ := hsingle
    obtain ⟨b, hb⟩ : ∃ b, bs = [b] := by
      cases bs with
      | nil => simp at hlen1
      | cons a l =>
        cases l with
        | nil => exact ⟨a, rfl⟩
        | cons c m => simp at hlen1
    subst hb
    simp only [List.head?_cons, Option.getD_some] at hhead
    have hbuf : encodeBytes [b] ++ tail = b :: tail := by
      simp [encodeBytes, hhead]
    rw [hbuf, decodeBytes]
    have hd : decodeRlpHeader (b :: tail) = some (false, 1, b :: tail) := by
      simp [decodeRlpHeader, hhead]
    rw [hd]
    simp [Option.bind]
  · rcases bs with _ | ⟨b, rest⟩
    · have hbuf2 : encodeBytes [] ++ tail = 0x80 :: tail := by
        simp [encodeBytes, rlpHeaderBytes]
      rw [hbuf2, decodeBytes]
      have hd : decodeRlpHeader (0x80 :: tail) = some (false, 0, tail) := by
        simp [decodeRlpHeader]
      rw [hd]
      simp [Option.bind]
    · rcases rest with _ | ⟨c, rest2⟩
      · have hbge : ¬ (b < 0x80) := by
          intro hb
          exact hsingle (by simp [hb])
        have hbuf2 : encodeBytes [b] ++ tail = 0x81 :: b :: tail := by
          simp [encodeBytes, hsingle, rlpHeaderBytes, hbge]
        rw [hbuf2, decodeBytes]
        have hd : decodeRlpHeader (0x81 :: b :: tail) =
            some (false, 1, b :: tail) := by
          simp [decodeRlpHeader, hbge]
        rw [hd]
        simp [Option.bind]
      · have hbuf2 : encodeBytes (b :: c :: rest2) ++ tail =
            rlpHeaderBytes false (b :: c :: rest2).length
              ++ ((b :: c :: rest2) ++ tail) := by
          simp [encodeBytes, hsingle, List.append_assoc]
        rw [hbuf2, decodeBytes]
        have h2le : 2 ≤ (b :: c :: rest2).length := by simp
        have hwle : (b :: c :: rest2).length ≤
            ((b :: c :: rest2) ++ tail).length := by simp
        rw [decodeRlpHeader_str _ _ h2le hwle hlol]
        have htake2 : ((b :: c :: rest2) ++ tail).take (b :: c :: rest2).length =
            b :: c :: rest2 := List.take_left _ _
        have hdrop2 : ((b :: c :: rest2) ++ tail).drop (b :: c :: rest2).length =
            tail := List.drop_left _ _
        have hlt2 : ¬ (((b :: c :: rest2) ++ tail).length <
            (b :: c :: rest2).length) := by simp
        simp [Option.bind, hlt2, htake2, hdrop2]

theorem encodeBytes_length (bs : List Nat) :
    (encodeBytes bs).length = bytesLength bs := by
  unfold encodeBytes bytesLength
  by_cases hsingle : bs.length = 1 ∧ bs.head?.getD 0 < 0x80
  · simp [hsingle]
  · simp [hsingle, rlpHeaderBytes_length]

/-! ## Theorems: BlockHeader and BodyForStorage round-trips -/

theorem decodeFixed32_encode {n : Nat} (tail : List Nat) (hn : n < 256 ^ 32) :
    decodeFixed 32 (encodeFixed 32 n ++ tail) = some (n, tail) :=
  decodeFixed_encode tail (by norm_num) (beBytes_length_le (by norm_num)) hn

theorem decodeFixed20_encode {n : Nat} (tail : List Nat) (hn : n < 256 ^ 20) :
    decodeFixed 20 (encodeFixed 20 n ++ tail) = some (n, tail) :=
  decodeFixed_encode tail (by norm_num) (beBytes_length_le (by norm_num)) hn

theorem decodeFixed8_encode {n : Nat} (tail : List Nat) (hn : n < 256 ^ 8) :
    decodeFixed 8 (encodeFixed 8 n ++ tail) = some (n, tail) :=
  decodeFixed_encode tail (by norm_num) (beBytes_length_le (by norm_num)) hn

theorem decodeFixed256_encode {n : Nat} (tail : List Nat) (hn : n < 256 ^ 256) :
    decodeFixed 256 (encodeFixed 256 n ++ tail) = some (n, tail) :=
  decodeFixed_encode tail (by norm_num) (beBytes_length_le (by norm_num)) hn

theorem decodeUint32_encode {n : Nat} (tail : List Nat) (hn : n < 256 ^ 32) :
    decodeUint 32 (encodeUint n ++ tail) = some (n, tail) :=
  decodeUint_encode tail hn (by norm_num)

theorem decodeUint8_encode {n : Nat} (tail : List Nat) (hn : n < 256 ^ 8) :
    decodeUint 8 (encodeUint n ++ tail) = some (n, tail) :=
  decodeUint_encode tail hn (by norm_num)

theorem decodeUint4_encode {n : Nat} (tail : List Nat) (hn : n < 256 ^ 4) :
    decodeUint 4 (encodeUint n ++ tail) = some (n, tail) :=
  decodeUint_encode tail hn (by norm_num)

theorem decodeHeaderHashes_encode {a b c d e f : Nat} (tail : List Nat)
    (ha : a < 256 ^ 32) (hb : b < 256 ^ 32) (hc : c < 256 ^ 20)
    (hd : d < 256 ^ 32) (he : e < 256 ^ 32) (hf : f < 256 ^ 32) :
    decodeHeaderHashes (encodeFixed 32 a ++ (encodeFixed 32 b ++
      (encodeFixed 20 c ++ (encodeFixed 32 d ++ (encodeFixed 32 e ++
      (encodeFixed 32 f ++ tail)))))) = some ((a, b, c, d, e, f), tail) := by
  unfold decodeHeaderHashes
  rw [decodeFixed32_encode _ ha]
  dsimp only [Option.bind]
  rw [decodeFixed32_encode _ hb]
  dsimp only [Option.bind]
  rw [decodeFixed20_encode _ hc]
  dsimp only [Option.bind]
  rw [decodeFixed32_encode _ hd]
  dsimp only [Option.bind]
  rw [decodeFixed32_encode _ he]
  dsimp only [Option.bind]
  rw [decodeFixed32_encode _ hf]

theorem decodeHeaderMids_encode {a b c d e f : Nat} (tail : List Nat)
    (ha : a < 256 ^ 256) (hb : b < 256 ^ 32) (hc : c < 256 ^ 32)
    (hd : d < 256 ^ 8) (he : e < 256 ^ 8) (hf : f < 256 ^ 8) :
    decodeHeaderMids (encodeFixed 256 a ++ (encodeUint b ++
      (encodeUint c ++ (encodeUint d ++ (encodeUint e ++
      (encodeUint f ++ tail)))))) = some ((a, b, c, d, e, f), tail) := by
  unfold decodeHeaderMids
  rw [decodeFixed256_encode _ ha]
  dsimp only [Option.bind]
  rw [decodeUint32_encode _ hb]
  dsimp only [Option.bind]
  rw [decodeUint32_encode _ hc]
  dsimp only [Option.bind]
  rw [decodeUint8_encode _ hd]
  dsimp only [Option.bind]
  rw [decodeUint8_encode _ he]
  dsimp only [Option.bind]
  rw [decodeUint8_encode _ hf]

theorem decodeHeaderTail_encode {ex : List Nat} {m n : Nat} (tail : List Nat)
    (hex : ex.length < 256 ^ 8) (hm : m < 256 ^ 32) (hn : n < 256 ^ 8) :
    decodeHeaderTail (encodeBytes ex ++ (encodeFixed 32 m ++
      (encodeFixed 8 n ++ tail))) = some ((ex, m, n), tail) := by
  unfold decodeHeaderTail
  rw [decodeBytes_encode _ _ (beBytes_length_le hex)]
  dsimp only [Option.bind]
  rw [decodeFixed32_encode _ hm]
  dsimp only [Option.bind]
  rw [decodeFixed8_encode _ hn]

theorem uintLength_pos (n : Nat) : 1 ≤ uintLength n := by
  unfold uintLength
  split <;> omega

theorem decodeBlockHeader_encode (h : BlockHeader) (hh : ValidHeader h)
    (tail : List Nat) :
    decodeBlockHeader (encodeBlockHeader h ++ tail) = some (h, tail) := by
  obtain ⟨h1, h2, h3, h4, h5, h6, h7, h8, h9, h10, h11, h12, h13, h14, h15,
    h16, h17, h18⟩ := hh
  have hb256 : (beBytes 256).length = 2 := by simp [beBytes]
  have e1 : (encodeFixed 32 h.parent_hash).length = 33 := by
    rw [encodeFixed_length h1]; norm_num [length_of_length]
  have e2 : (encodeFixed 32 h.uncle_hash).length = 33 := by
    rw [encodeFixed_length h2]; norm_num [length_of_length]
  have e3 : (encodeFixed 20 h.coinbase).length = 21 := by
    rw [encodeFixed_length h3]; norm_num [length_of_length]
  have e4 : (encodeFixed 32 h.root).length = 33 := by
    rw [encodeFixed_length h4]; norm_num [length_of_length]
  have e5 : (encodeFixed 32 h.tx_hash).length = 33 := by
    rw [encodeFixed_length h5]; norm_num [length_of_length]
  have e6 : (encodeFixed 32 h.receipts_hash).length = 33 := by
    rw [encodeFixed_length h6]; norm_num [length_of_length]
  have e7 : (encodeFixed 256 h.bloom).length = 259 := by
    rw [encodeFixed_length h7]; norm_num [length_of_length, hb256]
  have e8 := encodeUint_length h.difficulty
  have e9 := encodeUint_length h.number
  have e10 := encodeUint_length h.gas_limit
  have e11 := encodeUint_length h.gas_used
  have e12 := encodeUint_length h.time
  have e13 := encodeBytes_length h.extra
  have e14 : (encodeFixed 32 h.mix_digest).length = 33 := by
    rw [encodeFixed_length h15]; norm_num [length_of_length]
  have e15 : (encodeFixed 8 h.nonce).length = 9 := by
    rw [encodeFixed_length h16]; norm_num [length_of_length]
  have u8 := uintLength_pos h.difficulty
  have u9 := uintLength_pos h.number
  have u10 := uintLength_pos h.gas_limit
  have u11 := uintLength_pos h.gas_used
  have u12 := uintLength_pos h.time
  rcases hbf : h.base_fee with _ | f
  · have hP : headerPayloadLength h =
        33 + 33 + 21 + 33 + 33 + 33 + 259 + uintLength h.difficulty +
        uintLength h.number + uintLength h.gas_limit + uintLength h.gas_used +
        uintLength h.time + bytesLength h.extra + 33 + 9 := by
      simp [headerPayloadLength, hbf, KECCAK_LENGTH, ADDRESS_LENGTH,
        BLOOM_BYTE_LENGTH, length_of_length, hb256]
    simp only [encodeBlockHeader, hbf, List.append_assoc, List.append_nil]
    rw [decodeBlockHeader]
    rw [decodeRlpHeader_list _ _ (by
      simp only [List.length_append, e1, e2, e3, e4, e5, e6, e7, e8, e9, e10,
        e11, e12, e13, e14, e15]
      omega)]
    dsimp only [Option.bind]
    rw [if_neg (by simp)]
    rw [decodeHeaderHashes_encode _ h1 h2 h3 h4 h5 h6]
    dsimp only [Option.bind]
    rw [decodeHeaderMids_encode _ h7 h8 h9 h10 h11 h12]
    dsimp only [Option.bind]
    rw [decodeHeaderTail_encode _ h14 h15 h16]
    dsimp only [Option.bind]
    rw [if_neg (by
      simp only [List.length_append, e1, e2, e3, e4, e5, e6, e7, e8, e9, e10,
        e11, e12, e13, e14, e15]
      omega)]
    rw [← hbf, ← h18]
  · have hf : f < 256 ^ 32 := by
      rw [hbf] at h17
      simpa using h17
    have uf := uintLength_pos f
    have ef := encodeUint_length f
    have hP : headerPayloadLength h =
        33 + 33 + 21 + 33 + 33 + 33 + 259 + uintLength h.difficulty +
        uintLength h.number + uintLength h.gas_limit + uintLength h.gas_used +
        uintLength h.time + bytesLength h.extra + 33 + 9 + uintLength f := by
      simp [headerPayloadLength, hbf, KECCAK_LENGTH, ADDRESS_LENGTH,
        BLOOM_BYTE_LENGTH, length_of_length, hb256]
    simp only [encodeBlockHeader, hbf, List.append_assoc]
    rw [decodeBlockHeader]
    rw [decodeRlpHeader_list _ _ (by
      simp only [List.length_append, e1, e2, e3, e4, e5, e6, e7, e8, e9, e10,
        e11, e12, e13, e14, e15, ef]
      omega)]
    dsimp only [Option.bind]
    rw [if_neg (by simp)]
    rw [decodeHeaderHashes_encode _ h1 h2 h3 h4 h5 h6]
    dsimp only [Option.bind]
    rw [decodeHeaderMids_encode _ h7 h8 h9 h10 h11 h12]
    dsimp only [Option.bind]
    rw [decodeHeaderTail_encode _ h14 h15 h16]
    dsimp only [Option.bind]
    rw [if_pos (by
      simp only [List.length_append, e1, e2, e3, e4, e5, e6, e7, e8, e9, e10,
        e11, e12, e13, e14, e15, ef]
      omega)]
    rw [decodeUint32_encode _ hf]
    dsimp only [Option.bind]
    rw [← hbf, ← h18]

theorem encodeBlockHeader_length (h : BlockHeader) (hh : ValidHeader h) :
    (encodeBlockHeader h).length = blockHeaderLength h := by
  obtain ⟨h1, h2, h3, h4, h5, h6, h7, h8, h9, h10, h11, h12, h13, h14, h15,
    h16, h17, h18⟩ := hh
  have hb256 : (beBytes 256).length = 2 := by simp [beBytes]
  rcases hbf : h.base_fee with _ | f <;>
  · simp only [encodeBlockHeader, blockHeaderLength, hbf, List.length_append,
      rlpHeaderBytes_length, encodeFixed_length h1, encodeFixed_length h2,
      encodeFixed_length h3, encodeFixed_length h4, encodeFixed_length h5,
      encodeFixed_length h6, encodeFixed_length h7, encodeFixed_length h15,
      encodeFixed_length h16, encodeUint_length, encodeBytes_length,
      headerPayloadLength, KECCAK_LENGTH, ADDRESS_LENGTH, BLOOM_BYTE_LENGTH,
      List.length_nil]
    simp [length_of_length, hb256]
    omega

theorem encodeBlockHeader_ne_nil (h : BlockHeader) : encodeBlockHeader h ≠ [] := by
  unfold encodeBlockHeader rlpHeaderBytes
  split <;> simp

theorem encodedUncles_length (hs : List BlockHeader)
    (hv : ∀ x ∈ hs, ValidHeader x) :
    (hs.map encodeBlockHeader).flatten.length = unclesPayloadLength hs := by
  rw [List.length_flatten, List.map_map, unclesPayloadLength]
  congr 1
  apply List.map_eq_map_iff.mpr
  intro x hx
  exact encodeBlockHeader_length x (hv x hx)

theorem decodeHeaderItems_encode (hs : List BlockHeader)
    (hv : ∀ x ∈ hs, ValidHeader x) (fuel : Nat)
    (hfuel : (hs.map encodeBlockHeader).flatten.length ≤ fuel) :
    decodeHeaderItems fuel (hs.map encodeBlockHeader).flatten = some hs := by
  induction hs generalizing fuel with
  | nil => cases fuel <;> simp [decodeHeaderItems]
  | cons h hsrest ih =>
    have hmem : ValidHeader h := hv h (by simp)
    have hflat : (List.map encodeBlockHeader (h :: hsrest)).flatten =
        encodeBlockHeader h ++ (hsrest.map encodeBlockHeader).flatten := by
      simp
    rw [hflat] at hfuel ⊢
    obtain ⟨b, bs, hcons⟩ : ∃ b bs, encodeBlockHeader h ++
        (hsrest.map encodeBlockHeader).flatten = b :: bs := by
      cases henc : encodeBlockHeader h with
      | nil => exact absurd henc (encodeBlockHeader_ne_nil h)
      | cons x xs => exact ⟨x, xs ++ (hsrest.map encodeBlockHeader).flatten, by
          simp⟩
    have hlen1 : 1 ≤ (encodeBlockHeader h).length := by
      cases henc : encodeBlockHeader h with
      | nil => exact absurd henc (encodeBlockHeader_ne_nil h)
      | cons x xs => simp
    rw [List.length_append] at hfuel
    cases fuel with
    | zero => omega
    | succ f =>
      rw [hcons, decodeHeaderItems, ← hcons,
        decodeBlockHeader_encode h hmem _]
      dsimp only [Option.bind]
      rw [ih (fun x hx => hv x (by simp [hx])) f (by omega)]

theorem decodeHeaderVec_encode (hs : List BlockHeader)
    (hv : ∀ x ∈ hs, ValidHeader x) (tail : List Nat) :
    decodeHeaderVec (encodeHeaderVec hs ++ tail) = some (hs, tail) := by
  have hflat := encodedUncles_length hs hv
  have hbuf : encodeHeaderVec hs ++ tail =
      rlpHeaderBytes true (unclesPayloadLength hs) ++
        ((hs.map encodeBlockHeader).flatten ++ tail) := by
    simp [encodeHeaderVec, List.append_assoc]
  rw [hbuf, decodeHeaderVec, decodeRlpHeader_list _ _ (by
    rw [List.length_append, hflat]
    omega)]
  dsimp only [Option.bind]
  rw [if_neg (by simp)]
  have hlt : ¬ (((hs.map encodeBlockHeader).flatten ++ tail).length <
      unclesPayloadLength hs) := by
    rw [List.length_append, hflat]
    omega
  rw [if_neg hlt]
  have htake : ((hs.map encodeBlockHeader).flatten ++ tail).take
      (unclesPayloadLength hs) = (hs.map encodeBlockHeader).flatten := by
    rw [List.take_append_of_le_length hflat.ge]
    exact List.take_of_length_le hflat.le
  have hdrop : ((hs.map encodeBlockHeader).flatten ++ tail).drop
      (unclesPayloadLength hs) = tail := by
    rw [List.drop_append_of_le_length hflat.ge,
      List.drop_eq_nil_of_le hflat.le]
    simp
  rw [htake, hdrop, decodeHeaderItems_encode hs hv _ hflat.le]

theorem decodeBody_encode (b : BodyForStorage) (hb : ValidBody b)
    (tail : List Nat) :
    decodeBody (encodeBody b ++ tail) = some (b, tail) := by
  obtain ⟨hbtx, htxa, hunc⟩ := hb
  have hflat := encodedUncles_length b.uncles hunc
  have hvec : (encodeHeaderVec b.uncles).length =
      length_of_length (unclesPayloadLength b.uncles) +
        unclesPayloadLength b.uncles := by
    rw [encodeHeaderVec, List.length_append, rlpHeaderBytes_length, hflat]
  have hbuf : encodeBody b ++ tail =
      rlpHeaderBytes true (bodyPayloadLength b) ++
        (encodeUint b.base_tx_id ++ (encodeUint b.tx_amount ++
          (encodeHeaderVec b.uncles ++ tail))) := by
    simp [encodeBody, List.append_assoc]
  rw [hbuf, decodeBody, decodeRlpHeader_list _ _ (by
    simp only [List.length_append, encodeUint_length, hvec, bodyPayloadLength]
    omega)]
  dsimp only [Option.bind]
  rw [if_neg (by simp)]
  rw [decodeUint8_encode _ hbtx]
  dsimp only [Option.bind]
  rw [decodeUint4_encode _ htxa]
  dsimp only [Option.bind]
  rw [decodeHeaderVec_encode b.uncles hunc tail]

/-! ## Theorems: Account decoding -/

theorem andThen_eq_ok {α β : Type} {x : TDecodeResult α} {f : α → TDecodeResult β}
    {b : β} : x.andThen f = .ok b ↔ ∃ a, x = .ok a ∧ f a = .ok b := by
  cases x <;> simp [TDecodeResult.andThen]

theorem decode_cons (fieldset : Nat) (rest : List Nat) :
    Account.decode (fieldset :: rest) =
      ((((((TDecodeResult.ok (Account.default, rest)).andThen
        (decodeNonce fieldset)).andThen
        (decodeBalance fieldset)).andThen
        (decodeIncarnation fieldset)).andThen
        (decodeCodehash fieldset)).andThen (fun st => .ok st.1)) := rfl

theorem decodeNonce_preserves {f : Nat} {st st' : Account × List Nat}
    (h : decodeNonce f st = .ok st') :
    st'.1.incarnation = st.1.incarnation ∧ st'.1.balance = st.1.balance ∧
      st'.1.codehash = st.1.codehash ∧ (f &&& 1 = 0 → st' = st) := by
  unfold decodeNonce at h
  by_cases hb : f &&& 1 = 0
  · rw [if_pos hb] at h
    simp only [TDecodeResult.ok.injEq] at h
    subst h
    simp
  · rw [if_neg hb] at h
    cases hp : parse_u64_with_len st.2 with
    | ok p =>
      rw [hp] at h
      simp only [TDecodeResult.andThen, TDecodeResult.ok.injEq] at h
      subst h
      refine ⟨rfl, rfl, rfl, fun hc => absurd hc hb⟩
    | err m =>
      rw [hp] at h
      simp [TDecodeResult.andThen] at h
    | panic =>
      rw [hp] at h
      simp [TDecodeResult.andThen] at h

theorem decodeBalance_preserves {f : Nat} {st st' : Account × List Nat}
    (h : decodeBalance f st = .ok st') :
    st'.1.nonce = st.1.nonce ∧ st'.1.incarnation = st.1.incarnation ∧
      st'.1.codehash = st.1.codehash ∧ (f &&& 2 = 0 → st' = st) := by
  unfold decodeBalance at h
  by_cases hb : f &&& 2 = 0
  · rw [if_pos hb] at h
    simp only [TDecodeResult.ok.injEq] at h
    subst h
    simp
  · rw [if_neg hb] at h
    cases hl : st.2 with
    | nil =>
      rw [hl] at h
      simp at h
    | cons balLen rest =>
      rw [hl] at h
      by_cases h1 : rest.length < balLen
      · simp [h1] at h
      · by_cases h2 : 32 < balLen
        · simp [h1, h2] at h
        · simp only [if_neg h1, if_neg h2, TDecodeResult.ok.injEq] at h
          subst h
          refine ⟨rfl, rfl, rfl, fun hc => absurd hc hb⟩

theorem decodeIncarnation_preserves {f : Nat} {st st' : Account × List Nat}
    (h : decodeIncarnation f st = .ok st') :
    st'.1.nonce = st.1.nonce ∧ st'.1.balance = st.1.balance ∧
      st'.1.codehash = st.1.codehash ∧ (f &&& 4 = 0 → st' = st) := by
  unfold decodeIncarnation at h
  by_cases hb : f &&& 4 = 0
  · rw [if_pos hb] at h
    simp only [TDecodeResult.ok.injEq] at h
    subst h
    simp
  · rw [if_neg hb] at h
    cases hp : parse_u64_with_len st.2 with
    | ok p =>
      rw [hp] at h
      simp only [TDecodeResult.andThen, TDecodeResult.ok.injEq] at h
      subst h
      refine ⟨rfl, rfl, rfl, fun hc => absurd hc hb⟩
    | err m =>
      rw [hp] at h
      simp [TDecodeResult.andThen] at h
    | panic =>
      rw [hp] at h
      simp [TDecodeResult.andThen] at h

theorem decodeCodehash_preserves {f : Nat} {st st' : Account × List Nat}
    (h : decodeCodehash f st = .ok st') :
    st'.1.nonce = st.1.nonce ∧ st'.1.balance = st.1.balance ∧
      st'.1.incarnation = st.1.incarnation ∧ (f &&& 8 = 0 → st' = st) := by
  unfold decodeCodehash at h
  by_cases hb : f &&& 8 = 0
  · rw [if_pos hb] at h
    simp only [TDecodeResult.ok.injEq] at h
    subst h
    simp
  · rw [if_neg hb] at h
    cases hl : st.2 with
    | nil =>
      rw [hl] at h
      simp at h
    | cons len rest =>
      rw [hl] at h
      by_cases h1 : len ≠ KECCAK_LENGTH
      · simp [h1] at h
      · by_cases h2 : rest.length < KECCAK_LENGTH
        · simp [h1, h2] at h
        · simp only [if_neg h1, if_neg h2, TDecodeResult.ok.injEq] at h
          subst h
          refine ⟨rfl, rfl, rfl, fun hc => absurd hc hb⟩

theorem parse_u64_append {l : List Nat} {v : Nat} {r : List Nat}
    (extra : List Nat) (h : parse_u64_with_len l = .ok (v, r)) :
    parse_u64_with_len (l ++ extra) = .ok (v, r ++ extra) := by
  cases l with
  | nil => simp [parse_u64_with_len] at h
  | cons len tl =>
    by_cases hlt : tl.length < len
    · simp [parse_u64_with_len, hlt] at h
    · have hle : len ≤ tl.length := by omega
      simp only [parse_u64_with_len, if_neg hlt, TDecodeResult.ok.injEq,
        Prod.mk.injEq] at h
      have hlt2 : ¬ ((tl ++ extra).length < len) := by
        rw [List.length_append]
        omega
      simp only [List.cons_append, parse_u64_with_len, if_neg hlt2,
        List.take_append_of_le_length hle, List.drop_append_of_le_length hle,
        TDecodeResult.ok.injEq, Prod.mk.injEq]
      exact ⟨h.1, by rw [← h.2]⟩

theorem decodeNonce_append {f : Nat} {a a' : Account} {l l' : List Nat}
    (extra : List Nat) (h : decodeNonce f (a, l) = .ok (a', l')) :
    decodeNonce f (a, l ++ extra) = .ok (a', l' ++ extra) := by
  unfold decodeNonce at h ⊢
  by_cases hb : f &&& 1 = 0
  · simp only [if_pos hb, TDecodeResult.ok.injEq, Prod.mk.injEq] at h ⊢
    exact ⟨h.1, by rw [h.2]⟩
  · simp only [if_neg hb] at h ⊢
    cases hp : parse_u64_with_len l with
    | ok p =>
      rw [hp] at h
      simp only [TDecodeResult.andThen, TDecodeResult.ok.injEq,
        Prod.mk.injEq] at h
      have hp2 : parse_u64_with_len l = .ok (p.1, p.2) := by rw [hp]
      rw [parse_u64_append extra hp2]
      simp only [TDecodeResult.andThen, TDecodeResult.ok.injEq, Prod.mk.injEq]
      exact ⟨by rw [← h.1], by rw [← h.2]⟩
    | err m =>
      rw [hp] at h
      simp [TDecodeResult.andThen] at h
    | panic =>
      rw [hp] at h
      simp [TDecodeResult.andThen] at h

theorem decodeIncarnation_append {f : Nat} {a a' : Account} {l l' : List Nat}
    (extra : List Nat) (h : decodeIncarnation f (a, l) = .ok (a', l')) :
    decodeIncarnation f (a, l ++ extra) = .ok (a', l' ++ extra) := by
  unfold decodeIncarnation at h ⊢
  by_cases hb : f &&& 4 = 0
  · simp only [if_pos hb, TDecodeResult.ok.injEq, Prod.mk.injEq] at h ⊢
    exact ⟨h.1, by rw [h.2]⟩
  · simp only [if_neg hb] at h ⊢
    cases hp : parse_u64_with_len l with
    | ok p =>
      rw [hp] at h
      simp only [TDecodeResult.andThen, TDecodeResult.ok.injEq,
        Prod.mk.injEq] at h
      have hp2 : parse_u64_with_len l = .ok (p.1, p.2) := by rw [hp]
      rw [parse_u64_append extra hp2]
      simp only [TDecodeResult.andThen, TDecodeResult.ok.injEq, Prod.mk.injEq]
      exact ⟨by rw [← h.1], by rw [← h.2]⟩
    | err m =>
      rw [hp] at h
      simp [TDecodeResult.andThen] at h
    | panic =>
      rw [hp] at h
      simp [TDecodeResult.andThen] at h

theorem decodeBalance_append {f : Nat} {a a' : Account} {l l' : List Nat}
    (extra : List Nat) (h : decodeBalance f (a, l) = .ok (a', l')) :
    decodeBalance f (a, l ++ extra) = .ok (a', l' ++ extra) := by
  unfold decodeBalance at h ⊢
  by_cases hb : f &&& 2 = 0
  · simp only [if_pos hb, TDecodeResult.ok.injEq, Prod.mk.injEq] at h ⊢
    exact ⟨h.1, by rw [h.2]⟩
  · simp only [if_neg hb] at h ⊢
    cases hl : l with
    | nil => simp [hl] at h
    | cons balLen tl =>
      by_cases h1 : tl.length < balLen
      · simp [hl, h1] at h
      · by_cases h2 : 32 < balLen
        · simp [hl, h1, h2] at h
        · have hle : balLen ≤ tl.length := by omega
          rw [hl] at h
          simp only [if_neg h1, if_neg h2, TDecodeResult.ok.injEq,
            Prod.mk.injEq] at h
          have h1b : ¬ ((tl ++ extra).length < balLen) := by
            rw [List.length_append]
            omega
          simp only [List.cons_append, if_neg h1b, if_neg h2,
            List.take_append_of_le_length hle,
            List.drop_append_of_le_length hle, TDecodeResult.ok.injEq,
            Prod.mk.injEq]
          exact ⟨by rw [← h.1], by rw [← h.2]⟩

theorem decodeCodehash_append {f : Nat} {a a' : Account} {l l' : List Nat}
    (extra : List Nat) (h : decodeCodehash f (a, l) = .ok (a', l')) :
    decodeCodehash f (a, l ++ extra) = .ok (a', l' ++ extra) := by
  unfold decodeCodehash at h ⊢
  by_cases hb : f &&& 8 = 0
  · simp only [if_pos hb, TDecodeResult.ok.injEq, Prod.mk.injEq] at h ⊢
    exact ⟨h.1, by rw [h.2]⟩
  · simp only [if_neg hb] at h ⊢
    cases hl : l with
    | nil => simp [hl] at h
    | cons len tl =>
      by_cases h1 : len ≠ KECCAK_LENGTH
      · simp [hl, h1] at h
      · by_cases h2 : tl.length < KECCAK_LENGTH
        · simp [hl, h1, h2] at h
        · have hle : KECCAK_LENGTH ≤ tl.length := by omega
          rw [hl] at h
          simp only [if_neg h1, if_neg h2, TDecodeResult.ok.injEq,
            Prod.mk.injEq] at h
          have h2b : ¬ ((tl ++ extra).length < KECCAK_LENGTH) := by
            rw [List.length_append]
            omega
          simp only [List.cons_append, if_neg h1, if_neg h2b,
            List.take_append_of_le_length hle,
            List.drop_append_of_le_length hle, TDecodeResult.ok.injEq,
            Prod.mk.injEq]
          exact ⟨by rw [← h.1], by rw [← h.2]⟩

theorem decodeNonce_mask (f : Nat) : decodeNonce (f &&& 15) = decodeNonce f := by
  funext st
  unfold decodeNonce
  rw [Nat.and_assoc, show ((15 : Nat) &&& 1) = 1 from by decide]

theorem decodeBalance_mask (f : Nat) :
    decodeBalance (f &&& 15) = decodeBalance f := by
  funext st
  unfold decodeBalance
  rw [Nat.and_assoc, show ((15 : Nat) &&& 2) = 2 from by decide]

theorem decodeIncarnation_mask (f : Nat) :
    decodeIncarnation (f &&& 15) = decodeIncarnation f := by
  funext st
  unfold decodeIncarnation
  rw [Nat.and_assoc, show ((15 : Nat) &&& 4) = 4 from by decide]

theorem decodeCodehash_mask (f : Nat) :
    decodeCodehash (f &&& 15) = decodeCodehash f := by
  funext st
  unfold decodeCodehash
  rw [Nat.and_assoc, show ((15 : Nat) &&& 8) = 8 from by decide]

theorem find_eq_none_of_all_lt {map : List Nat} {n : Nat}
    (h : ∀ x ∈ map, x < n) : find map n = none := by
  have hall : map.filter (fun x => x ≤ n - 1) = map := by
    apply List.filter_eq_self.mpr
    intro x hx
    have := h x hx
    simp only [decide_eq_true_eq]
    omega
  rw [find, select, rank, hall]
  exact List.get?_eq_none.mpr (le_refl _)

/-! ## The claims -/

/-- C1 (counterexample): at block 0 with 0 in the bitmap, `find` does not
return the smallest element `≥ 0` computed with rank 0: the saturating
subtraction makes `rank (0 - 1)` count the element 0 itself (rank 1), so
`find {0, 5} 0` selects 5 while the smallest element `≥ 0` is 0. -/
theorem c1_counterexample :
    find [0, 5] 0 = some 5 ∧ smallestGeqSpec [0, 5] 0 = some 0 ∧
      rank [0, 5] (0 - 1) = 1 := by decide

/-- C1 (amended): for a sorted bitmap, `find` — which computes
`select (rank (block - 1))` with saturating subtraction — returns the
smallest bitmap element `≥ block` (as an option, `none` when there is none,
which the caller unwraps) whenever `block ≥ 1` or the bitmap does not
contain 0; when `block = 0` and `0` is in the bitmap the rank is 1, not 0,
and `find` skips the element 0. -/
theorem c1_find_smallest_geq (map : List Nat) (block : Nat)
    (hs : map.Sorted (· < ·)) (h0 : 1 ≤ block ∨ 0 ∉ map) :
    find map block = smallestGeqSpec map block :=
  find_eq_smallestGeq hs h0

/-- C1 (witness): the amended theorem at the spec's own example, bitmap
`{10, 20, 30}` queried at block 15. -/
theorem c1_witness :
    find [10, 20, 30] 15 = smallestGeqSpec [10, 20, 30] 15 ∧
      find [10, 20, 30] 15 = some 20 :=
  ⟨c1_find_smallest_geq [10, 20, 30] 15 (by decide) (by decide), by decide⟩

/-- C2 (counterexample): when the initial history-index seek finds no entry
(empty index), `read_account_hist` returns the hard error
`eyre!("No value")`, not an empty result. -/
theorem c2_counterexample :
    read_account_hist
      { accountHistory := [], accountChangeSet := [],
        plainCodeHash := fun _ => none, storageHistory := [],
        storageChangeSet := [] } 1 5 = .err "No value" ∧
    read_account_hist
      { accountHistory := [], accountChangeSet := [],
        plainCodeHash := fun _ => none, storageHistory := [],
        storageChangeSet := [] } 1 5 ≠ .ok none := by decide

/-- C2 (amended): the change-set-level misses of `read_account_hist` and
`read_storage_hist` (no duplicate entry at the change block, or a returned
sub-key that does not match) yield the empty result `Ok(None)`; but the
initial history-index seek finding no entry, and the codehash backfill
finding no entry, are hard `eyre!("No value")` errors, not empty results. -/
theorem c2_lookup_miss_behavior (σ : HistStore)
    (adr inc slot block csBlock : Nat) (bitmap : List Nat)
    (k2 : Nat × Nat) (k3 : Nat × Nat × Nat) :
    (seek2 σ.accountHistory (adr, block) = none →
      read_account_hist σ adr block = .err "No value") ∧
    (seek3 σ.storageHistory (adr, slot, block) = none →
      read_storage_hist σ adr inc slot block = .err "No value") ∧
    (seek2 σ.accountHistory (adr, block) = some (k2, bitmap) →
      find bitmap block = some csBlock →
      seekDup σ.accountChangeSet csBlock adr = none →
      read_account_hist σ adr block = .ok none) ∧
    (∀ k acct, seek2 σ.accountHistory (adr, block) = some (k2, bitmap) →
      find bitmap block = some csBlock →
      seekDup σ.accountChangeSet csBlock adr = some (k, acct) → k ≠ adr →
      read_account_hist σ adr block = .ok none) ∧
    (∀ acct, seek2 σ.accountHistory (adr, block) = some (k2, bitmap) →
      find bitmap block = some csBlock →
      seekDup σ.accountChangeSet csBlock adr = some (adr, acct) →
      0 < acct.incarnation → acct.codehash = 0 →
      σ.plainCodeHash (adr, acct.incarnation) = none →
      read_account_hist σ adr block = .err "No value") ∧
    (seek3 σ.storageHistory (adr, slot, block) = some (k3, bitmap) →
      find bitmap block = some csBlock →
      seekDup σ.storageChangeSet (csBlock, adr, inc) slot = none →
      read_storage_hist σ adr inc slot block = .ok none) := by
  refine ⟨?_, ?_, ?_, ?_, ?_, ?_⟩
  · intro hseek
    simp [read_account_hist, hseek]
  · intro hseek
    simp [read_storage_hist, hseek]
  · intro hseek hfind hdup
    simp [read_account_hist, hseek, hfind, hdup]
  · intro k acct hseek hfind hdup hk
    simp [read_account_hist, hseek, hfind, hdup, hk]
  · intro acct hseek hfind hdup hinc hch hph
    simp [read_account_hist, hseek, hfind, hdup, hinc, hch, hph]
  · intro hseek hfind hdup
    simp [read_storage_hist, hseek, hfind, hdup]

/-- C2 (witness): on `sampleStore` the index seek succeeds (bitmap `{7}`,
change block 7) but the change set is empty, so the account lookup returns
the empty result. -/
theorem c2_witness : read_account_hist sampleStore 1 5 = .ok none :=
  (c2_lookup_miss_behavior sampleStore 1 0 0 5 7 [7] (1, 5)
    (1, 1, 1)).2.2.1 (by decide) (by decide) (by decide)

/-- C3: `read_body_for_storage` of a stored body with `tx_amount = t ≥ 2`
returns the body with `base_tx_id` incremented and `tx_amount = t - 2`; a
stored body with `t < 2` is a descriptive error naming the count and the
key; a missing key is an empty result, not an error. -/
theorem c3_read_body_for_storage (key : Nat × Nat) (b : BodyForStorage)
    (hwrap : b.base_tx_id + 1 < 2 ^ 64) :
    (2 ≤ b.tx_amount →
      read_body_for_storage key (some b) =
        .ok (some { b with base_tx_id := b.base_tx_id + 1,
                           tx_amount := b.tx_amount - 2 })) ∧
    (b.tx_amount < 2 →
      read_body_for_storage key (some b) =
        .error ("Block body has too few txs: " ++ toString b.tx_amount ++
          ". HeaderKey: " ++ toString key.1 ++ ", " ++ toString key.2)) ∧
    read_body_for_storage key none = .ok none := by
  refine ⟨?_, ?_, rfl⟩
  · intro ht
    rw [read_body_for_storage, if_neg (by omega)]
    have hm : (b.base_tx_id + 1) % 2 ^ 64 = b.base_tx_id + 1 :=
      Nat.mod_eq_of_lt hwrap
    rw [hm]
  · intro ht
    rw [read_body_for_storage, if_pos ht]

/-- C3 (witness): a stored body with 5 transactions at ids 10.. becomes a
body with 3 transactions at ids 11..; a stored body with 1 transaction
fails. -/
theorem c3_witness :
    read_body_for_storage (3, 4)
        (some { base_tx_id := 10, tx_amount := 5, uncles := [] }) =
      .ok (some { base_tx_id := 11, tx_amount := 3, uncles := [] }) ∧
    read_body_for_storage (3, 4)
        (some { base_tx_id := 10, tx_amount := 1, uncles := [] }) =
      .error "Block body has too few txs: 1. HeaderKey: 3, 4" := by
  have h1 := (c3_read_body_for_storage (3, 4)
    { base_tx_id := 10, tx_amount := 5, uncles := [] } (by decide)).1
    (by decide)
  have h2 := (c3_read_body_for_storage (3, 4)
    { base_tx_id := 10, tx_amount := 1, uncles := [] } (by decide)).2.1
    (by decide)
  exact ⟨by simpa using h1, by simpa using h2⟩

/-- C9: when the history-index seek succeeds but every bitmap element is
below the queried block (no change point at or after it), `find` returns
`none` — the `unwrap` in the source panics — and `read_account_hist` and
`read_storage_hist` abort instead of returning a value or an error. -/
theorem c9_find_unwrap_panics (σ : HistStore) (adr inc slot block : Nat)
    (k2 : Nat × Nat) (k3 : Nat × Nat × Nat) (bitmap bitmap3 : List Nat)
    (hseek : seek2 σ.accountHistory (adr, block) = some (k2, bitmap))
    (hall : ∀ x ∈ bitmap, x < block)
    (hseek3 : seek3 σ.storageHistory (adr, slot, block) = some (k3, bitmap3))
    (hall3 : ∀ x ∈ bitmap3, x < block) :
    find bitmap block = none ∧
    read_account_hist σ adr block = .panic ∧
    read_storage_hist σ adr inc slot block = .panic := by
  have h1 := find_eq_none_of_all_lt hall
  have h2 := find_eq_none_of_all_lt hall3
  refine ⟨h1, ?_, ?_⟩
  · simp [read_account_hist, hseek, h1]
  · simp [read_storage_hist, hseek3, h2]

/-- C4 (counterexample): with the zero hash stored as canonical for block 5
but no header-number entry for the zero hash, `is_canonical_hash 0` is a
hard `No value` error, not `false`. -/
theorem c4_counterexample :
    is_canonical_hash (fun _ => none)
      (fun n => if n = 5 then some 0 else none) 0 = .error "No value" ∧
    is_canonical_hash (fun _ => none)
      (fun n => if n = 5 then some 0 else none) 0 ≠ .ok false :=
  ⟨rfl, by simp [is_canonical_hash]⟩

/-- C4 (amended): whenever both lookups succeed — the queried hash has a
recorded header number and that number has a recorded canonical hash —
`is_canonical_hash` returns exactly `canon != 0 && canon == hash`: true for
the canonical hash (when non-zero), false for any other hash at that
number, and false for the zero hash; but a hash whose number is not
recorded (or a number with no canonical entry) is a hard `No value` error
rather than `false`. -/
theorem c4_is_canonical_hash (headerNumber canonicalHeader : Nat → Option Nat)
    (hash num canon : Nat)
    (hn : headerNumber hash = some num)
    (hc : canonicalHeader num = some canon) :
    is_canonical_hash headerNumber canonicalHeader hash =
      .ok (decide (canon ≠ 0 ∧ canon = hash)) ∧
    (canon = hash → canon ≠ 0 →
      is_canonical_hash headerNumber canonicalHeader hash = .ok true) ∧
    (canon ≠ hash →
      is_canonical_hash headerNumber canonicalHeader hash = .ok false) ∧
    (hash = 0 →
      is_canonical_hash headerNumber canonicalHeader hash = .ok false) ∧
    (∀ h2, headerNumber h2 = none →
      is_canonical_hash headerNumber canonicalHeader h2 =
        .error "No value") := by
  refine ⟨by simp [is_canonical_hash, hn, hc], ?_, ?_, ?_, ?_⟩
  · intro heq hne
    subst heq
    simp [is_canonical_hash, hn, hc, hne]
  · intro hne
    simp [is_canonical_hash, hn, hc, hne]
  · intro h0
    subst h0
    by_cases hz : canon = 0
    · simp [is_canonical_hash, hn, hc, hz]
    · simp [is_canonical_hash, hn, hc, hz]
  · intro h2 hnone
    simp [is_canonical_hash, hnone]

/-- C4 (witness): block number 5 has canonical hash 7; hash 7 maps to
number 5, so `is_canonical_hash 7` is true, and hash 9 (also at number 5)
is false. -/
theorem c4_witness :
    is_canonical_hash (fun h => if h = 7 ∨ h = 9 then some 5 else none)
      (fun n => if n = 5 then some 7 else none) 7 = .ok true ∧
    is_canonical_hash (fun h => if h = 7 ∨ h = 9 then some 5 else none)
      (fun n => if n = 5 then some 7 else none) 9 = .ok false := by
  have h1 := (c4_is_canonical_hash
    (fun h => if h = 7 ∨ h = 9 then some 5 else none)
    (fun n => if n = 5 then some 7 else none) 7 5 7
    (by decide) (by decide)).2.1 (by decide) (by decide)
  have h2 := (c4_is_canonical_hash
    (fun h => if h = 7 ∨ h = 9 then some 5 else none)
    (fun n => if n = 5 then some 7 else none) 9 5 7
    (by decide) (by decide)).2.2.1 (by decide)
  exact ⟨h1, h2⟩

/-- C5 (counterexample): for the empty-code hash, `read_code` returns
`Ok(Default::default())`, which for `Option<Bytecode>` is `None` — an
empty result, not `Some` of empty bytecode bytes — even when the Code
table maps the empty-code hash to non-empty bytes. -/
theorem c5_counterexample :
    read_code (fun h => if h = EMPTY_HASH then some [1, 2] else none)
      EMPTY_HASH = none ∧
    read_code (fun h => if h = EMPTY_HASH then some [1, 2] else none)
      EMPTY_HASH ≠ some [] := by decide

/-- C5 (amended): for the well-known empty-code hash, `read_code`
short-circuits without consulting the Code table — the result is `None`
(the default empty option) whatever the table holds, not `Some` of empty
bytes; for every other codehash it performs the Code-table lookup. -/
theorem c5_read_code (code code2 : Nat → Option (List Nat)) (h : Nat) :
    read_code code EMPTY_HASH = none ∧
    read_code code EMPTY_HASH = read_code code2 EMPTY_HASH ∧
    (h ≠ EMPTY_HASH → read_code code h = code h) := by
  refine ⟨by simp [read_code], by simp [read_code], fun hne => ?_⟩
  simp [read_code, hne]

/-- C5 (witness): a table mapping everything to `[9]` still yields `none`
at the empty-code hash, and the table value at codehash 3. -/
theorem c5_witness :
    read_code (fun _ => some [9]) EMPTY_HASH = none ∧
    read_code (fun _ => some [9]) 3 = some [9] := by
  have h := c5_read_code (fun _ => some [9]) (fun _ => none) 3
  exact ⟨h.1, (h.2.2 (by decide)).trans rfl⟩

/-- C8: for every valid `BlockHeader` (fields in range, seal absent) and
valid `BodyForStorage`, `decode (encode x) = x` with the whole buffer
consumed; the optional base fee is emitted only when present and parsed
back exactly when unconsumed payload bytes remain after the mandatory
fields (the round-trips cover both cases); and decoding always produces
`seal = None`. -/
theorem c8_rlp_roundtrip (h : BlockHeader) (b : BodyForStorage)
    (hh : ValidHeader h) (hb : ValidBody b) :
    decodeBlockHeader (encodeBlockHeader h) = some (h, []) ∧
    decodeBody (encodeBody b) = some (b, []) ∧
    (∀ buf hdr rest, decodeBlockHeader buf = some (hdr, rest) →
      hdr.«seal» = none) := by
  refine ⟨?_, ?_, ?_⟩
  · have := decodeBlockHeader_encode h hh []
    simpa using this
  · have := decodeBody_encode b hb []
    simpa using this
  · intro buf hdr rest hdec
    rw [decodeBlockHeader] at hdec
    rcases hrh : decodeRlpHeader buf with _ | hd
    · rw [hrh] at hdec
      simp at hdec
    · rw [hrh] at hdec
      dsimp only [Option.bind] at hdec
      split at hdec
      · simp at hdec
      · rcases hq1 : decodeHeaderHashes hd.2.2 with _ | qa
        · rw [hq1] at hdec
          simp at hdec
        · rw [hq1] at hdec
          dsimp only [Option.bind] at hdec
          rcases hq2 : decodeHeaderMids qa.2 with _ | qb
          · rw [hq2] at hdec
            simp at hdec
          · rw [hq2] at hdec
            dsimp only [Option.bind] at hdec
            rcases hq3 : decodeHeaderTail qb.2 with _ | qc
            · rw [hq3] at hdec
              simp at hdec
            · rw [hq3] at hdec
              dsimp only [Option.bind] at hdec
              split at hdec
              · rcases hq4 : decodeUint 32 qc.2 with _ | qd
                · rw [hq4] at hdec
                  simp at hdec
                · rw [hq4] at hdec
                  dsimp only [Option.bind] at hdec
                  simp only [Option.some.injEq, Prod.mk.injEq] at hdec
                  rw [← hdec.1]
              · simp only [Option.some.injEq, Prod.mk.injEq] at hdec
                rw [← hdec.1]

/-- C8 (witness): the round-trips at `sampleHeader` (base fee present) and
`sampleBody` (whose uncle has no base fee). -/
theorem c8_witness :
    decodeBlockHeader (encodeBlockHeader sampleHeader) =
      some (sampleHeader, []) ∧
    decodeBody (encodeBody sampleBody) = some (sampleBody, []) := by
  have h := c8_rlp_roundtrip sampleHeader sampleBody (by decide) (by decide)
  exact ⟨h.1, h.2.1⟩

theorem and8_ne_zero_of_and15 {f : Nat} (h15 : f &&& 15 ≠ 0)
    (h1 : f &&& 1 = 0) (h2 : f &&& 2 = 0) (h4 : f &&& 4 = 0) :
    f &&& 8 ≠ 0 := by
  have m : f &&& 15 = f % 16 := by
    have h := Nat.and_pow_two_sub_one_eq_mod f 4
    norm_num at h
    exact h
  have b0 : f &&& 1 = f % 2 := Nat.and_one_is_mod f
  have e1 : f &&& 2 = (f.testBit 1).toNat * 2 := by
    have h := Nat.and_two_pow f 1
    norm_num at h
    exact h
  have e2 : f &&& 4 = (f.testBit 2).toNat * 4 := by
    have h := Nat.and_two_pow f 2
    norm_num at h
    exact h
  have e3 : f &&& 8 = (f.testBit 3).toNat * 8 := by
    have h := Nat.and_two_pow f 3
    norm_num at h
    exact h
  rw [Nat.testBit_to_div_mod] at e1 e2 e3
  norm_num at e1 e2 e3
  intro h8
  have k1 : f / 2 % 2 = 0 := by
    by_contra hq
    have hq1 : f / 2 % 2 = 1 := by omega
    rw [hq1] at e1
    simp at e1
    omega
  have k2 : f / 4 % 2 = 0 := by
    by_contra hq
    have hq1 : f / 4 % 2 = 1 := by omega
    rw [hq1] at e2
    simp at e2
    omega
  have k3 : f / 8 % 2 = 0 := by
    by_contra hq
    have hq1 : f / 8 % 2 = 1 := by omega
    rw [hq1] at e3
    simp at e3
    omega
  omega

/-- C6 (counterexample): a buffer whose fieldset has the codehash bit set
but which ends before the length byte makes `Account::decode` panic
(`bytes::Buf` over-read), not fail with a length-mismatch error. -/
theorem c6_counterexample :
    Account.decode [8] = .panic ∧ (∀ msg, Account.decode [8] ≠ .err msg) := by
  constructor
  · decide
  · intro msg
    rw [show Account.decode [8] = .panic from by decide]
    simp

/-- C6 (amended): an empty buffer decodes to the zero account; when the
codehash bit is set and the earlier selected fields consume their bytes
leaving a length byte, decoding fails with the descriptive length-mismatch
error unless that byte is exactly 32 (given 32 more bytes it succeeds,
filling the codehash); a buffer exhausted before the length byte panics
instead.  Fields not selected by bits 0-3 of the fieldset stay zero. -/
theorem c6_account_decode (fieldset : Nat) (enc rest : List Nat)
    (acct1 : Account) (len : Nat) :
    Account.decode [] = .ok Account.default ∧
    (fieldset &&& 8 ≠ 0 →
      (((TDecodeResult.ok (Account.default, enc)).andThen
        (decodeNonce fieldset)).andThen (decodeBalance fieldset)).andThen
        (decodeIncarnation fieldset) = .ok (acct1, len :: rest) →
      len ≠ KECCAK_LENGTH →
      Account.decode (fieldset :: enc) =
        .err ("codehash should be " ++ toString KECCAK_LENGTH ++
          " bytes long. Got " ++ toString len ++ " instead")) ∧
    (fieldset &&& 8 ≠ 0 →
      (((TDecodeResult.ok (Account.default, enc)).andThen
        (decodeNonce fieldset)).andThen (decodeBalance fieldset)).andThen
        (decodeIncarnation fieldset) = .ok (acct1, len :: rest) →
      len = KECCAK_LENGTH → KECCAK_LENGTH ≤ rest.length →
      Account.decode (fieldset :: enc) =
        .ok { acct1 with codehash := fromBE (rest.take KECCAK_LENGTH) }) ∧
    (∀ a, Account.decode (fieldset :: enc) = .ok a →
      (fieldset &&& 1 = 0 → a.nonce = 0) ∧
      (fieldset &&& 2 = 0 → a.balance = 0) ∧
      (fieldset &&& 4 = 0 → a.incarnation = 0) ∧
      (fieldset &&& 8 = 0 → a.codehash = 0)) := by
  refine ⟨rfl, ?_, ?_, ?_⟩
  · intro hbit hpre hne
    rw [decode_cons, hpre]
    simp [TDecodeResult.andThen, decodeCodehash, hbit, hne]
  · intro hbit hpre hlen hle
    subst hlen
    rw [decode_cons, hpre]
    have hlt : ¬ (rest.length < KECCAK_LENGTH) := by omega
    simp [TDecodeResult.andThen, decodeCodehash, hbit, hlt]
  · intro a ha
    rw [decode_cons] at ha
    obtain ⟨s5, hQ, hlast⟩ := andThen_eq_ok.mp ha
    obtain ⟨s4, hR, hC⟩ := andThen_eq_ok.mp hQ
    obtain ⟨s3, hS, hI⟩ := andThen_eq_ok.mp hR
    obtain ⟨s2, hT, hB⟩ := andThen_eq_ok.mp hS
    obtain ⟨s1, hU, hN⟩ := andThen_eq_ok.mp hT
    obtain rfl : (Account.default, enc) = s1 := by
      simpa using hU
    have ha5 : s5.1 = a := by
      simpa using hlast
    refine ⟨?_, ?_, ?_, ?_⟩
    · intro hb
      have n1 := (decodeNonce_preserves hN).2.2.2 hb
      have n2 := (decodeBalance_preserves hB).1
      have n3 := (decodeIncarnation_preserves hI).1
      have n4 := (decodeCodehash_preserves hC).1
      rw [← ha5, n4, n3, n2, n1]
      rfl
    · intro hb
      have n1 := (decodeNonce_preserves hN).2.1
      have n2 := (decodeBalance_preserves hB).2.2.2 hb
      have n3 := (decodeIncarnation_preserves hI).2.1
      have n4 := (decodeCodehash_preserves hC).2.1
      rw [← ha5, n4, n3, n2, n1]
      rfl
    · intro hb
      have n1 := (decodeNonce_preserves hN).1
      have n2 := (decodeBalance_preserves hB).2.1
      have n3 := (decodeIncarnation_preserves hI).2.2.2 hb
      have n4 := (decodeCodehash_preserves hC).2.2.1
      rw [← ha5, n4, n3, n2, n1]
      rfl
    · intro hb
      have n1 := (decodeNonce_preserves hN).2.2.1
      have n2 := (decodeBalance_preserves hB).2.2.1
      have n3 := (decodeIncarnation_preserves hI).2.2.1
      have n4 := (decodeCodehash_preserves hC).2.2.2 hb
      rw [← ha5, n4, n3, n2, n1]
      rfl

/-- C6 (witness): the buffer `[8, 31]` — codehash bit set, length byte
31 — fails with the descriptive length-mismatch error. -/
theorem c6_witness :
    Account.decode [8, 31] =
      .err ("codehash should be " ++ toString KECCAK_LENGTH ++
        " bytes long. Got " ++ toString 31 ++ " instead") :=
  (c6_account_decode 8 [31] [] Account.default 31).2.1 (by decide)
    (by decide) (by decide)

/-- C7 (counterexample): a buffer with the nonce bit set and no trailing
bytes makes `Account::decode` panic (a `bytes::Buf` over-read), not return
a decode error as the claim states. -/
theorem c7_counterexample :
    Account.decode [1] = .panic ∧ (∀ msg, Account.decode [1] ≠ .err msg) := by
  constructor
  · decide
  · intro msg
    rw [show Account.decode [1] = .panic from by decide]
    simp

/-- C7 (amended): for a buffer with recognized fieldset bits set but
insufficient trailing bytes for the first selected field, `Account::decode`
panics (an out-of-bounds buffer read) rather than returning an error,
silently truncating, or padding — in every field position, including a
buffer that ends right after the fieldset byte. -/
theorem c7_insufficient_bytes_panic (fieldset len : Nat) (rest : List Nat) :
    (fieldset &&& 1 ≠ 0 → rest.length < len →
      Account.decode (fieldset :: len :: rest) = .panic) ∧
    (fieldset &&& 1 = 0 → fieldset &&& 2 ≠ 0 → rest.length < len →
      Account.decode (fieldset :: len :: rest) = .panic) ∧
    (fieldset &&& 1 = 0 → fieldset &&& 2 = 0 → fieldset &&& 4 ≠ 0 →
      rest.length < len → Account.decode (fieldset :: len :: rest) = .panic) ∧
    (fieldset &&& 1 = 0 → fieldset &&& 2 = 0 → fieldset &&& 4 = 0 →
      fieldset &&& 8 ≠ 0 → len = KECCAK_LENGTH →
      rest.length < KECCAK_LENGTH →
      Account.decode (fieldset :: len :: rest) = .panic) ∧
    (fieldset &&& 15 ≠ 0 → Account.decode [fieldset] = .panic) := by
  refine ⟨?_, ?_, ?_, ?_, ?_⟩
  · intro hb hlt
    have hp : parse_u64_with_len (len :: rest) = .panic := by
      simp only [parse_u64_with_len, if_pos hlt]
    rw [decode_cons]
    simp only [TDecodeResult.andThen, decodeNonce, if_neg hb, hp]
  · intro h1 hb hlt
    have hbal : decodeBalance fieldset (Account.default, len :: rest) =
        .panic := by
      simp only [decodeBalance, if_neg hb, if_pos hlt]
    rw [decode_cons]
    simp only [TDecodeResult.andThen, decodeNonce, if_pos h1, hbal]
  · intro h1 h2 hb hlt
    have hp : parse_u64_with_len (len :: rest) = .panic := by
      simp only [parse_u64_with_len, if_pos hlt]
    rw [decode_cons]
    simp only [TDecodeResult.andThen, decodeNonce, if_pos h1, decodeBalance,
      if_pos h2, decodeIncarnation, if_neg hb, hp]
  · intro h1 h2 h4 hb hlen hlt
    subst hlen
    have hch : decodeCodehash fieldset
        (Account.default, KECCAK_LENGTH :: rest) = .panic := by
      simp only [decodeCodehash, if_neg hb]
      rw [if_neg (show ¬ (KECCAK_LENGTH ≠ KECCAK_LENGTH) from by simp),
        if_pos hlt]
    rw [decode_cons]
    simp only [TDecodeResult.andThen, decodeNonce, if_pos h1, decodeBalance,
      if_pos h2, decodeIncarnation, if_pos h4, hch]
  · intro h15
    rw [decode_cons]
    by_cases hb1 : fieldset &&& 1 = 0
    · by_cases hb2 : fieldset &&& 2 = 0
      · by_cases hb4 : fieldset &&& 4 = 0
        · have hb8 := and8_ne_zero_of_and15 h15 hb1 hb2 hb4
          have hch : decodeCodehash fieldset (Account.default, []) =
              .panic := by
            simp only [decodeCodehash, if_neg hb8]
          simp only [TDecodeResult.andThen, decodeNonce, if_pos hb1,
            decodeBalance, if_pos hb2, decodeIncarnation, if_pos hb4, hch]
        · have hp : parse_u64_with_len ([] : List Nat) = .panic := rfl
          simp only [TDecodeResult.andThen, decodeNonce, if_pos hb1,
            decodeBalance, if_pos hb2, decodeIncarnation, if_neg hb4, hp]
      · have hbal : decodeBalance fieldset (Account.default, []) =
            .panic := by
          simp only [decodeBalance, if_neg hb2]
        simp only [TDecodeResult.andThen, decodeNonce, if_pos hb1, hbal]
    · have hp : parse_u64_with_len ([] : List Nat) = .panic := rfl
      simp only [TDecodeResult.andThen, decodeNonce, if_neg hb1, hp]

/-- C7 (witness): nonce bit set with length byte 5 but only one trailing
byte: decode panics. -/
theorem c7_witness : Account.decode [1, 5, 9] = .panic :=
  (c7_insufficient_bytes_panic 1 5 [9]).1 (by decide) (by decide)

/-- C10: `Account::decode` never rejects unknown shapes at the tail —
fieldset bits above bit 3 are ignored (decoding a buffer equals decoding it
with the fieldset masked to its low 4 bits), and bytes left after the
selected fields are consumed are ignored: appending anything to a buffer
that decodes successfully leaves the decoded account unchanged. -/
theorem c10_account_decode_tail (fieldset : Nat) (tail extra : List Nat)
    (a : Account) :
    Account.decode (fieldset :: tail) =
      Account.decode ((fieldset &&& 15) :: tail) ∧
    (Account.decode (fieldset :: tail) = .ok a →
      Account.decode (fieldset :: (tail ++ extra)) = .ok a) := by
  constructor
  · rw [decode_cons, decode_cons, decodeNonce_mask, decodeBalance_mask,
      decodeIncarnation_mask, decodeCodehash_mask]
  · intro h
    rw [decode_cons] at h
    obtain ⟨s5, hQ, hlast⟩ := andThen_eq_ok.mp h
    obtain ⟨s4, hR, hC⟩ := andThen_eq_ok.mp hQ
    obtain ⟨s3, hS, hI⟩ := andThen_eq_ok.mp hR
    obtain ⟨s2, hT, hB⟩ := andThen_eq_ok.mp hS
    obtain ⟨s1, hU, hN⟩ := andThen_eq_ok.mp hT
    obtain rfl : (Account.default, tail) = s1 := by
      simpa using hU
    have ha5 : s5.1 = a := by
      simpa using hlast
    have hN' := @decodeNonce_append fieldset Account.default s2.1 tail s2.2
      extra hN
    have hB' := @decodeBalance_append fieldset s2.1 s3.1 s2.2 s3.2 extra hB
    have hI' := @decodeIncarnation_append fieldset s3.1 s4.1 s3.2 s4.2 extra hI
    have hC' := @decodeCodehash_append fieldset s4.1 s5.1 s4.2 s5.2 extra hC
    rw [decode_cons]
    simp only [TDecodeResult.andThen]
    rw [hN']
    simp only [TDecodeResult.andThen]
    rw [hB']
    simp only [TDecodeResult.andThen]
    rw [hI']
    simp only [TDecodeResult.andThen]
    rw [hC']
    simp only [TDecodeResult.andThen]
    rw [ha5]

/-- C10 (witness): fieldset 17 (an unknown high bit plus the nonce bit)
with two junk bytes after the nonce decodes to the same account as the
plain nonce buffer. -/
theorem c10_witness :
    Account.decode (17 :: ([1, 5] ++ [9, 9])) =
      .ok { nonce := 5, incarnation := 0, balance := 0, codehash := 0 } ∧
    Account.decode [17, 1, 5] = Account.decode ((17 &&& 15) :: [1, 5]) := by
  have h := c10_account_decode_tail 17 [1, 5] [9, 9]
    { nonce := 5, incarnation := 0, balance := 0, codehash := 0 }
  exact ⟨h.2 (by decide), h.1⟩

/-- C9 (witness): on `staleStore` (bitmap `{3}` under an index key at or
after the query block 5), both history reads panic. -/
theorem c9_witness :
    read_account_hist staleStore 1 5 = .panic ∧
    read_storage_hist staleStore 1 0 2 5 = .panic := by
  have h := c9_find_unwrap_panics staleStore 1 0 2 5 (1, 9) (1, 2, 9) [3] [3]
    (by decide) (by decide) (by decide) (by decide)
  exact ⟨h.2.1, h.2.2⟩

end ErigonDb
